import Mathlib

/-!
# Verification of the GAMA log-report parser (`gama/logging/GamaReport.py`)

This file gives a shallow embedding of the report-parsing core of the
repository: the `GamaReport` constructor, the metric-configuration
resolver `_find_metric_configuration`, the parseable-log-event grouping,
the phase-timeline extractor `_find_phase_information`, and the
evaluation-table builder `_evaluations_to_dataframe`, together with the
small fragment of `pandas.DataFrame` behaviour those functions use
(construction from a list of rows with given column labels, column
extraction, `cummax`, and column assignment).

Python exceptions are modelled by the `PyErr` type and fallible code by
`Except PyErr`.  Python strings are manipulated through their character
lists; `str.split` with the single-character separators used by the
source is `pySplit`, slicing `s[1:-1]` is `strip1`, and `float(...)` on
the plain decimal literals appearing in the logs is `pyFloat`.

The modules `gama.logging.machine_logging` (the `PLE_START`, `PLE_DELIM`,
`PLE_END` markers and the `TOKENS` vocabulary) and `gama.logging`
(`TIME_FORMAT`) are not part of the given sources; the corresponding
definitions below are modelled from the spec and marked as such.
-/

/-- A Python exception, by kind and message. -/
inductive PyErr where
  | valueError (msg : String)
  | indexError (msg : String)
  | typeError (msg : String)
  | keyError (msg : String)
  | nameError (msg : String)
deriving DecidableEq, Repr

/-- An exact decimal number `mant / 10 ^ exp`.  This is the value space
of the `float` literals the parser reads: every fitness value and
duration in the log is a plain decimal literal, and the only operations
the source performs on them are comparisons and maxima, on which exact
decimal arithmetic and floating point agree for the magnitudes at hand
(rounding is not modelled). -/
structure Dec where
  mant : ℤ
  exp : ℕ
deriving DecidableEq, Repr

/-- Value-level order on exact decimals:
`a ≤ b ↔ a.mant * 10^b.exp ≤ b.mant * 10^a.exp`. -/
def Dec.le (a b : Dec) : Prop :=
  a.mant * (10 : ℤ) ^ b.exp ≤ b.mant * (10 : ℤ) ^ a.exp

instance (a b : Dec) : Decidable (Dec.le a b) := by
  unfold Dec.le
  infer_instance

/-- Python `max(a, b)` on floats (as used by `cummax`): the larger value,
the second argument on ties. -/
def Dec.max (a b : Dec) : Dec :=
  if Dec.le a b then b else a

/-- A cell of the evaluation table: Python `int`, `float` (modelled as an
exact decimal), `str`, or the `NaN` padding value that pandas inserts
for missing cells. -/
inductive Cell where
  | int (n : ℤ)
  | num (q : Dec)
  | str (s : String)
  | na
deriving DecidableEq, Repr

/-- The decimal value of a numeric cell (and a default elsewhere); used
only to state properties of all-numeric columns. -/
def cellDec : Cell → Dec
  | Cell.num q => q
  | _ => ⟨0, 0⟩

/-! ## Python string primitives over character lists -/

/-- `str.split(sep)` for a single-character separator, over the character
list: splits at every occurrence of `sep`, keeping empty pieces, so the
result always has one more piece than there are separators. -/
def splitChars (sep : Char) : List Char → List (List Char)
  | [] => [[]]
  | c :: rest =>
    if c = sep then [] :: splitChars sep rest
    else
      match splitChars sep rest with
      | g :: gs => (c :: g) :: gs
      | [] => [[c]]

/-- Python `s.split(sep)` for the single-character separators used by the
source (`'('`, `','`, `'='`, the event delimiter and `'.'`). -/
def pySplit (sep : Char) (s : String) : List String :=
  (splitChars sep s.data).map (fun l => ⟨l⟩)

/-- Python `s.startswith(p)`. -/
def pyStartsWith (p s : String) : Bool :=
  decide (p.data <+: s.data)

/-- Python `s.endswith(p)`. -/
def pyEndsWith (p s : String) : Bool :=
  decide (p.data <:+ s.data)

/-- Python `s[1:-1]`: the string without its first and last characters. -/
def strip1 (s : String) : String :=
  ⟨(s.data.drop 1).dropLast⟩

/-- The numeric value of a list of decimal digit characters. -/
def decValue (l : List Char) : ℕ :=
  l.foldl (fun a c => 10 * a + (c.toNat - 48)) 0

/-- Python `float(s)` on plain decimal literals: an optional minus sign,
then digits with an optional single decimal point (at least one digit in
total).  This covers every fitness and timestamp literal the log format
produces; other forms Python would accept (exponents, `inf`, `nan`,
surrounding whitespace) do not occur in these logs and are rejected. -/
def pyFloat (s : String) : Except PyErr Dec :=
  let p : Bool × List Char :=
    match s.data with
    | '-' :: rest => (true, rest)
    | l => (false, l)
  match splitChars '.' p.2 with
  | [ip] =>
    if ip ≠ [] ∧ ip.all Char.isDigit then
      let m : ℤ := decValue ip
      Except.ok ⟨if p.1 then -m else m, 0⟩
    else Except.error (PyErr.valueError "could not convert string to float")
  | [ip, fp] =>
    if (ip ≠ [] ∨ fp ≠ []) ∧ ip.all Char.isDigit ∧ fp.all Char.isDigit then
      let m : ℤ := decValue ip * (10 : ℤ) ^ fp.length + decValue fp
      Except.ok ⟨if p.1 then -m else m, fp.length⟩
    else Except.error (PyErr.valueError "could not convert string to float")
  | _ => Except.error (PyErr.valueError "could not convert string to float")

/-- The decimal digit characters. -/
def digitCh (d : ℕ) : Char :=
  match d with
  | 0 => '0' | 1 => '1' | 2 => '2' | 3 => '3' | 4 => '4'
  | 5 => '5' | 6 => '6' | 7 => '7' | 8 => '8' | _ => '9'

/-- Decimal digits of `n`, most significant first (fuel-driven). -/
def natChars (fuel n : ℕ) : List Char :=
  match fuel with
  | 0 => []
  | fuel + 1 =>
    if n < 10 then [digitCh n]
    else natChars fuel (n / 10) ++ [digitCh (n % 10)]

/-- Python `str(n)` for a nonnegative integer (decimal representation),
as interpolated by the f-string `f'metric_{m_i}'`. -/
def natStr (n : ℕ) : String :=
  ⟨natChars (n + 1) n⟩

/-! ## Modelled constants of the missing `gama.logging` modules -/

/-- Modelled from the spec: `PLE_START` of
`gama.logging.machine_logging` (missing from the sources), the fixed
start marker framing a parseable log event. -/
def PLE_START : String := "PLE"

/-- Modelled from the spec: `PLE_DELIM` of
`gama.logging.machine_logging` (missing from the sources), the fixed
field delimiter of a parseable log event, a single character. -/
def PLE_DELIM : Char := ';'

/-- Modelled from the spec: `PLE_END` of `gama.logging.machine_logging`
(missing from the sources), the fixed end marker framing a parseable log
event. -/
def PLE_END : String := "END!"

/-- Modelled from the spec: `TOKENS.EVALUATION_RESULT` of
`gama.logging.machine_logging` (missing from the sources), the
event-type token of an evaluation-result event. -/
def EVALUATION_RESULT : String := "EVAL"

/-- Modelled from the spec: `TOKENS.PHASE_START` of
`gama.logging.machine_logging` (missing from the sources), the
event-type token of a phase-start event. -/
def PHASE_START : String := "PS"

/-- Modelled from the spec: `TOKENS.PHASE_END` of
`gama.logging.machine_logging` (missing from the sources), the
event-type token of a phase-end event. -/
def PHASE_END : String := "PE"

/-- Modelled from the spec: `TOKENS.values()`, the fixed, known-in-advance
vocabulary of expected event-type tokens.  The tokens beyond the three
used by the report parser are outside the spec's scope and play no rôle
in any statement below. -/
def TOKENS_values : List String := [EVALUATION_RESULT, PHASE_START, PHASE_END]

/-- Modelled from the spec: `datetime.strptime(s, TIME_FORMAT)` for the
fixed textual timestamp format (`TIME_FORMAT` of `gama.logging` is
missing from the sources).  A timestamp is modelled as a nonnegative
number of seconds written in decimal; any other string fails to match
the format, as `strptime` would. -/
def strptime (s : String) : Except PyErr ℤ :=
  if s.data ≠ [] ∧ s.data.all Char.isDigit then Except.ok (decValue s.data)
  else Except.error (PyErr.valueError "time data does not match format")

/-! ## Tokenizer / event grouper (`GamaReport.__init__`, lines 49-52) -/

/-- The fields of a framed line:
`line.split(PLE_DELIM)[1:-1]` — split on the delimiter and discard the
first and last tokens (the markers). -/
def pleFields (line : String) : List String :=
  ((pySplit PLE_DELIM line).drop 1).dropLast

/-- `ple_lines`: the field-lists of exactly those raw lines framed by the
start and end markers. -/
def ple_lines (log_lines : List String) : List (List String) :=
  (log_lines.filter (fun l => pyStartsWith PLE_START l && pyEndsWith PLE_END l)).map pleFields

/-- The dictionary comprehension
`{token: [event for line_token, *event in ple_lines if token == line_token] for token in TOKENS.values()}`,
given that no field-list is empty (an empty one would make the unpacking
`line_token, *event` fail). -/
def groupByToken (tokens : List String) (ples : List (List String)) :
    List (String × List (List String)) :=
  tokens.map (fun token =>
    (token, ples.filterMap (fun pl =>
      match pl with
      | line_token :: event => if line_token = token then some event else none
      | [] => none)))

/-- `events_by_type`: group the framed events by their event-type token,
one key per expected token.  The unpacking `line_token, *event` inside
the comprehension raises `ValueError` if some framed line has no fields
at all, which the guard models. -/
def events_by_type (log_lines : List String) :
    Except PyErr (List (String × List (List String))) :=
  if (ple_lines log_lines).any List.isEmpty then
    Except.error (PyErr.valueError "not enough values to unpack")
  else Except.ok (groupByToken TOKENS_values (ple_lines log_lines))

/-- Python dictionary subscript `d[k]`: `KeyError` when absent. -/
def dictGet (d : List (String × List (List String))) (k : String) :
    Except PyErr (List (List String)) :=
  match d.lookup k with
  | some v => Except.ok v
  | none => Except.error (PyErr.keyError k)

/-! ## Metric-configuration resolver (`_find_metric_configuration`) -/

/-- Python list subscript `log_lines[i]`: `IndexError` when out of range. -/
def pyIndex (log_lines : List String) (i : ℕ) : Except PyErr String :=
  match log_lines.get? i with
  | some l => Except.ok l
  | none => Except.error (PyErr.indexError "list index out of range")

/-- Python two-name tuple unpacking `a, b = parts`: `ValueError` unless
there are exactly two parts. -/
def unpack2 (parts : List String) : Except PyErr (String × String) :=
  match parts with
  | [a, b] => Except.ok (a, b)
  | _ => Except.error (PyErr.valueError "unpack")

/-- Python starred unpacking `a, b, *rest = parts`: `ValueError` unless
there are at least two parts. -/
def unpack2Star (parts : List String) : Except PyErr (String × String) :=
  match parts with
  | a :: b :: _ => Except.ok (a, b)
  | _ => Except.error (PyErr.valueError "unpack")

/-- `_find_metric_configuration(log_lines)`: read the raw line at index 1,
split off the constructor-call argument list at `'('`
(`_, arguments = init_line.split('(')`), take the first two
comma-separated arguments
(`scoring, regularize_length, *_ = arguments.split(',')`), split each at
`'='`, and return `[metric, 'length']` when `bool(regularize)` is true —
that is, when the regularize string is non-empty — else `[metric]`. -/
def _find_metric_configuration (log_lines : List String) : Except PyErr (List String) := do
  let init_line ← pyIndex log_lines 1
  let ca ← unpack2 (pySplit '(' init_line)
  let sr ← unpack2Star (pySplit ',' ca.2)
  let sm ← unpack2 (pySplit '=' sr.1)
  let rr ← unpack2 (pySplit '=' sr.2)
  if rr.2 ≠ "" then Except.ok [sm.2, "length"]
  else Except.ok [sm.2]

/-! ## Phase-timeline extractor (`_find_phase_information`) -/

/-- One iteration of the phase loop: select the first start and end
field-lists containing the phase name as an element (`phase in event`),
unpack them as `_, _, start_time` and `_, algorithm, end_time`, parse
the two timestamps and return `(phase, algorithm, duration_in_seconds)`.
The subscript `[0]` on an empty selection models the `IndexError`; the
timestamps are parsed end first, as in
`strptime(end_time, ...) - strptime(start_time, ...)`. -/
def headOrIndexError (l : List (List String)) : Except PyErr (List String) :=
  match l with
  | [] => Except.error (PyErr.indexError "list index out of range")
  | e :: _ => Except.ok e

/-- Python three-name tuple unpacking `a, b, c = fields`: `ValueError`
unless there are exactly three fields. -/
def unpack3 (fields : List String) : Except PyErr (String × String × String) :=
  match fields with
  | [a, b, c] => Except.ok (a, b, c)
  | _ => Except.error (PyErr.valueError "unpack")

def findPhaseEntry (events : List (String × List (List String))) (phase : String) :
    Except PyErr (String × String × ℤ) := do
  let starts ← dictGet events PHASE_START
  let ends ← dictGet events PHASE_END
  let start_phase ← headOrIndexError (starts.filter (fun e => e.contains phase))
  let end_phase ← headOrIndexError (ends.filter (fun e => e.contains phase))
  let sp ← unpack3 start_phase
  let ep ← unpack3 end_phase
  let et ← strptime ep.2.2
  let st ← strptime sp.2.2
  Except.ok (phase, ep.2.1, et - st)

/-- `_find_phase_information(events_by_type)`: one `(phase, algorithm,
duration)` entry per phase, in the fixed order
`preprocessing, search, postprocess`. -/
def _find_phase_information (events : List (String × List (List String))) :
    Except PyErr (List (String × String × ℤ)) := do
  let a ← findPhaseEntry events "preprocessing"
  let b ← findPhaseEntry events "search"
  let c ← findPhaseEntry events "postprocess"
  Except.ok [a, b, c]

/-! ## The pandas fragment

The evaluation table is a `DataFrame`: a row count and ordered labelled
columns, exactly the fragment of `pandas` the source exercises.
`pd.DataFrame(rows, columns=...)` stores one column per label, padding
rows shorter than the label list with `NaN` and failing when a row is
longer.  `df[name]` reads the column stored under the first occurrence
of `name`; `df[name] = cells` replaces the columns labelled `name`, or
appends a new one when the label is absent.  `Series.cummax()` is the
running maximum, skipping `NaN` cells (which stay `NaN` in the output);
comparisons against a string cell raise `TypeError`, as the underlying
`>=` on mixed `str`/`float` does. -/

structure DataFrame where
  nrows : ℕ
  cols : List (String × List Cell)
deriving DecidableEq, Repr

/-- The ordered list of column labels. -/
def DataFrame.colNames (df : DataFrame) : List String :=
  df.cols.map Prod.fst

/-- `df[name]` for a uniquely-labelled column: the cells stored under the
first column labelled `name` (empty when absent). -/
def DataFrame.col (df : DataFrame) (name : String) : List Cell :=
  match df.cols.lookup name with
  | some cs => cs
  | none => []

/-- The number of columns labelled `name`. -/
def DataFrame.colCount (df : DataFrame) (name : String) : ℕ :=
  (df.cols.filter (fun c => c.1 = name)).length

/-- `df[name] = cells`: replace every column labelled `name`, or append a
new column when the label is absent. -/
def DataFrame.setCol (df : DataFrame) (name : String) (cells : List Cell) : DataFrame :=
  if name ∈ df.colNames then
    ⟨df.nrows, df.cols.map (fun c => if c.1 = name then (c.1, cells) else c)⟩
  else ⟨df.nrows, df.cols ++ [(name, cells)]⟩

/-- Column-major transposition of a row list, one column per label, short
rows padded with `NaN`: column `i` holds `r.getD i na` for each row. -/
def transposeCols (rows : List (List Cell)) (i : ℕ) : List String → List (String × List Cell)
  | [] => []
  | nm :: rest => (nm, rows.map (fun r => r.getD i Cell.na)) :: transposeCols rows (i + 1) rest

/-- `pd.DataFrame(rows, columns=column_names)`: fails when some row is
longer than the label list, otherwise stores the padded columns. -/
def mkDataFrame (rows : List (List Cell)) (column_names : List String) :
    Except PyErr DataFrame :=
  if rows.all (fun r => r.length ≤ column_names.length) then
    Except.ok ⟨rows.length, transposeCols rows 0 column_names⟩
  else Except.error (PyErr.valueError "columns passed, passed data had more columns")

/-- `Series.cummax()` with the running maximum `cur` seen so far: numeric
cells update the maximum, `NaN` cells stay `NaN` and keep it, a string
cell raises `TypeError` (mixed `str`/`float` comparison).  An `int` cell
behaves as its numeric value (only the `n` column holds ints and it is
never a metric column in any statement below). -/
def cummaxGo (cur : Option Dec) : List Cell → Except PyErr (List Cell)
  | [] => Except.ok []
  | Cell.num q :: rest =>
    let m := match cur with
      | none => q
      | some a => Dec.max a q
    do
      let tail ← cummaxGo (some m) rest
      Except.ok (Cell.num m :: tail)
  | Cell.int n :: rest =>
    let m := match cur with
      | none => (⟨n, 0⟩ : Dec)
      | some a => Dec.max a ⟨n, 0⟩
    do
      let tail ← cummaxGo (some m) rest
      Except.ok (Cell.num m :: tail)
  | Cell.na :: rest => do
      let tail ← cummaxGo cur rest
      Except.ok (Cell.na :: tail)
  | Cell.str _ :: _ =>
      Except.error (PyErr.typeError "comparison not supported between str and float")

/-- `df[metric].cummax()`. -/
def cummaxCells (cells : List Cell) : Except PyErr (List Cell) :=
  cummaxGo none cells

/-- One iteration of `for metric in metric_names: df[f'{metric}_cummax'] = df[metric].cummax()`:
`df[metric]` must denote a single column (duplicate labels would make it
a sub-`DataFrame` and the subsequent assignment fail), its running
maximum is computed and assigned under the derived label. -/
def addCummaxColumn (df : DataFrame) (metric : String) : Except PyErr DataFrame := do
  if df.colCount metric = 1 then
    let cm ← cummaxCells (df.col metric)
    Except.ok (df.setCol (metric ++ "_cummax") cm)
  else Except.error (PyErr.valueError "cannot assign from a DataFrame slice")

/-- The whole derived-column loop, in metric order. -/
def addCummaxColumns (df : DataFrame) : List String → Except PyErr DataFrame
  | [] => Except.ok df
  | m :: rest => do
      let d ← addCummaxColumn df m
      addCummaxColumns d rest

/-! ## Evaluation-table builder (`_evaluations_to_dataframe`) -/

/-- Parse a list of strings with `float`, in order, failing on the first
unconvertible one (the list comprehension
`[float(value) for value in fitness[1:-1].split(',')]`). -/
def parseFloatList : List String → Except PyErr (List Dec)
  | [] => Except.ok []
  | s :: rest => do
      let v ← pyFloat s
      let vs ← parseFloatList rest
      Except.ok (v :: vs)

/-- The fitness-tuple parse: strip the outer parentheses of the fitness
field, split on commas, convert each piece with `float`. -/
def pyFloats (fitness : String) : Except PyErr (List Dec) :=
  parseFloatList ((splitChars ',' (strip1 fitness).data).map (fun l => ⟨l⟩))

/-- One iteration of the evaluation loop: unpack the seven fields
`time, duration, process_duration, fitness, id, pipeline_str, log_time`,
parse the fitness tuple and emit the row
`[i, time, duration, *metrics_values, pipeline_str, id]`. -/
def evalRow (i : ℕ) (line : List String) : Except PyErr (List Cell) :=
  match line with
  | [time, duration, _process_duration, fitness, id_, pipeline_str, _log_time] => do
      let vs ← pyFloats fitness
      Except.ok ([Cell.int i, Cell.str time, Cell.str duration] ++
        vs.map Cell.num ++ [Cell.str pipeline_str, Cell.str id_])
  | _ => Except.error (PyErr.valueError "not enough values to unpack")

/-- The evaluation loop `for i, line in enumerate(evaluation_lines)`,
starting at index `i`. -/
def buildRows (i : ℕ) : List (List String) → Except PyErr (List (List Cell))
  | [] => Except.ok []
  | line :: rest => do
      let r ← evalRow i line
      let rs ← buildRows (i + 1) rest
      Except.ok (r :: rs)

/-- The synthesized metric names `metric_0 .. metric_{k-1}` for arity `k`. -/
def syntheticNames (k : ℕ) : List String :=
  (List.range k).map (fun m_i => "metric_" ++ natStr m_i)

/-- Resolve the metric-name list: the given one if present, otherwise
`[f'metric_{m_i}' for m_i in range(len(metrics_values))]` where
`metrics_values` is the loop variable after the last iteration — the
*last* row's fitness tuple (its row has `5 + k` cells); with no rows at
all the variable was never bound and a `NameError` is raised. -/
def resolveNames (rows : List (List Cell)) (metric_names : Option (List String)) :
    Except PyErr (List String) :=
  match metric_names with
  | some ns => Except.ok ns
  | none =>
    match rows.getLast? with
    | some r => Except.ok (syntheticNames (r.length - 5))
    | none => Except.error (PyErr.nameError "metrics_values")

/-- `_evaluations_to_dataframe(evaluation_lines, metric_names)`. -/
def _evaluations_to_dataframe (evaluation_lines : List (List String))
    (metric_names : Option (List String)) : Except PyErr DataFrame := do
  let evaluations ← buildRows 0 evaluation_lines
  let names ← resolveNames evaluations metric_names
  let column_names := ["n", "start", "duration"] ++ names ++ ["pipeline", "id"]
  let df ← mkDataFrame evaluations column_names
  addCummaxColumns df names

/-! ## The Report façade (`GamaReport.__init__`) -/

structure GamaReport where
  name : String
  metrics : List String
  evaluations : DataFrame
  phases : List (String × String × ℤ)
deriving DecidableEq, Repr

/-- The raw line list the constructor parses: the in-memory lines, or the
file's lines for a file path.  Reading a file is modelled by the
explicit oracle `readLines` (the constructor strips each file line's
trailing whitespace; the oracle returns the already-stripped lines). -/
def initLines (logfile : Option String) (log_lines : Option (List String))
    (readLines : String → List String) : List String :=
  match logfile with
  | some f => readLines f
  | none => log_lines.getD []

/-- `GamaReport.__init__(logfile, log_lines, name)`: argument validation,
then metric resolution, event grouping, evaluation-table construction
and phase extraction, in source order.  Any failure is the constructor's
failure; a report is returned only when every stage succeeds. -/
def GamaReport.init (logfile : Option String) (log_lines : Option (List String))
    (name : Option String) (readLines : String → List String) :
    Except PyErr GamaReport :=
  if logfile.isNone && log_lines.isNone then
    Except.error (PyErr.valueError
      "Either 'logfile' or 'loglines' must be provided. Both are None.")
  else if logfile.isSome && log_lines.isSome then
    Except.error (PyErr.valueError
      "Exactly one of 'logfile' and 'loglines' may be provided at once.")
  else do
    let lines := initLines logfile log_lines readLines
    let reportName := match name with
      | some n => n
      | none => match logfile with
        | some f => f
        | none => "nameless"
    let metrics ← _find_metric_configuration lines
    let events ← events_by_type lines
    let evalLines ← dictGet events EVALUATION_RESULT
    let evaluations ← _evaluations_to_dataframe evalLines (some metrics)
    let phases ← _find_phase_information events
    Except.ok ⟨reportName, metrics, evaluations, phases⟩

deriving instance DecidableEq for Except

/-! ## The fitness-tuple arity, syntactically

The number of comma-separated pieces inside the parentheses of the
fitness field (field index 3) of an evaluation event): defined whether
or not the pieces convert to floats. -/
def fitnessArity (line : List String) : ℕ :=
  (splitChars ',' (strip1 (line.getD 3 "")).data).length

/-! ## Concrete inputs used by the witnesses and counterexamples -/

/-- A complete well-formed log: a configuration line, three phases with
start and end events, two evaluation events and one unframed line. -/
def sampleLog : List String :=
  [ "GAMA log",
    "GamaClassifier(scoring=accuracy,regularize_length=True,n_jobs=1)",
    "PLE;PS;preprocessing;default;1;END!",
    "PLE;PE;preprocessing;default;2;END!",
    "PLE;PS;search;evo;3;END!",
    "PLE;EVAL;10;1;1;(0.5,3.0);id1;Pipe1;11;END!",
    "PLE;EVAL;12;2;2;(0.25,4.0);id2;Pipe2;13;END!",
    "not a parseable line",
    "PLE;PE;search;evo;7;END!",
    "PLE;PS;postprocess;best;8;END!",
    "PLE;PE;postprocess;best;9;END!" ]

/-- The report the constructor builds from `sampleLog`. -/
def sampleReport : GamaReport :=
  ⟨"nameless", ["accuracy", "length"],
    ⟨2, [("n", [Cell.int 0, Cell.int 1]),
         ("start", [Cell.str "10", Cell.str "12"]),
         ("duration", [Cell.str "1", Cell.str "2"]),
         ("accuracy", [Cell.num ⟨5, 1⟩, Cell.num ⟨25, 2⟩]),
         ("length", [Cell.num ⟨30, 1⟩, Cell.num ⟨40, 1⟩]),
         ("pipeline", [Cell.str "Pipe1", Cell.str "Pipe2"]),
         ("id", [Cell.str "id1", Cell.str "id2"]),
         ("accuracy_cummax", [Cell.num ⟨5, 1⟩, Cell.num ⟨5, 1⟩]),
         ("length_cummax", [Cell.num ⟨30, 1⟩, Cell.num ⟨40, 1⟩])]⟩,
    [("preprocessing", "default", 1), ("search", "evo", 4), ("postprocess", "best", 1)]⟩

/-- A log whose preprocessing end-phase timestamp precedes its start. -/
def negDurationLog : List String :=
  [ "GAMA log",
    "GamaClassifier(scoring=accuracy,regularize_length=True,n_jobs=1)",
    "PLE;PS;preprocessing;default;5;END!",
    "PLE;PE;preprocessing;default;3;END!",
    "PLE;PS;search;evo;3;END!",
    "PLE;EVAL;10;1;1;(0.5,3.0);id1;Pipe1;11;END!",
    "PLE;PE;search;evo;7;END!",
    "PLE;PS;postprocess;best;8;END!",
    "PLE;PE;postprocess;best;9;END!" ]

/-- The report built from `negDurationLog`, with a negative duration. -/
def negDurationReport : GamaReport :=
  ⟨"nameless", ["accuracy", "length"],
    ⟨1, [("n", [Cell.int 0]),
         ("start", [Cell.str "10"]),
         ("duration", [Cell.str "1"]),
         ("accuracy", [Cell.num ⟨5, 1⟩]),
         ("length", [Cell.num ⟨30, 1⟩]),
         ("pipeline", [Cell.str "Pipe1"]),
         ("id", [Cell.str "id1"]),
         ("accuracy_cummax", [Cell.num ⟨5, 1⟩]),
         ("length_cummax", [Cell.num ⟨30, 1⟩])]⟩,
    [("preprocessing", "default", -2), ("search", "evo", 4), ("postprocess", "best", 1)]⟩

/-- A log whose scoring metric is literally named `length_cummax`, so the
derived-column assignment for `length` overwrites that metric's column. -/
def collisionLog : List String :=
  [ "GAMA log",
    "GamaClassifier(scoring=length_cummax,regularize_length=True,n_jobs=1)",
    "PLE;PS;preprocessing;default;1;END!",
    "PLE;PE;preprocessing;default;2;END!",
    "PLE;PS;search;evo;3;END!",
    "PLE;EVAL;10;1;1;(1,2);id1;Pipe1;11;END!",
    "PLE;PE;search;evo;7;END!",
    "PLE;PS;postprocess;best;8;END!",
    "PLE;PE;postprocess;best;9;END!" ]

/-- The report built from `collisionLog`: the `length_cummax` column no
longer holds that metric's parsed value 1 but the running maximum 2 of
`length`, while `length_cummax_cummax` still holds 1. -/
def collisionReport : GamaReport :=
  ⟨"nameless", ["length_cummax", "length"],
    ⟨1, [("n", [Cell.int 0]),
         ("start", [Cell.str "10"]),
         ("duration", [Cell.str "1"]),
         ("length_cummax", [Cell.num ⟨2, 0⟩]),
         ("length", [Cell.num ⟨2, 0⟩]),
         ("pipeline", [Cell.str "Pipe1"]),
         ("id", [Cell.str "id1"]),
         ("length_cummax_cummax", [Cell.num ⟨1, 0⟩])]⟩,
    [("preprocessing", "default", 1), ("search", "evo", 4), ("postprocess", "best", 1)]⟩

/-- A line sequence with one framed event of an unexpected token. -/
def unknownTokenLog : List String :=
  ["x", "y", "PLE;WEIRD;a;END!"]

/-- The event group built from `unknownTokenLog`. -/
def unknownTokenGroup : List (String × List (List String)) :=
  [("EVAL", []), ("PS", []), ("PE", [])]

/-- `sampleLog` with the `search` end-phase event removed. -/
def missingEndLog : List String :=
  [ "GAMA log",
    "GamaClassifier(scoring=accuracy,regularize_length=True,n_jobs=1)",
    "PLE;PS;preprocessing;default;1;END!",
    "PLE;PE;preprocessing;default;2;END!",
    "PLE;PS;search;evo;3;END!",
    "PLE;EVAL;10;1;1;(0.5,3.0);id1;Pipe1;11;END!",
    "PLE;EVAL;12;2;2;(0.25,4.0);id2;Pipe2;13;END!",
    "PLE;PS;postprocess;best;8;END!",
    "PLE;PE;postprocess;best;9;END!" ]

/-- Grouped events whose phase events have only two fields. -/
def twoFieldEvents : List (String × List (List String)) :=
  [("EVAL", []), ("PS", [["preprocessing", "5"]]), ("PE", [["preprocessing", "7"]])]

/-- Grouped events whose phase events have the three-field shape, with an
end event whose first field differs from its algorithm field. -/
def threeFieldEvents : List (String × List (List String)) :=
  [("EVAL", []), ("PS", [["preprocessing", "algA", "10"]]),
   ("PE", [["preprocessing", "algB", "13"]])]

/-- One evaluation event of fitness arity 1. -/
def arityOneLines : List (List String) :=
  [["10", "1", "1", "(0.5)", "id1", "P1", "11"]]

/-- The table built from `arityOneLines` with inferred metric names. -/
def arityOneFrame : DataFrame :=
  ⟨1, [("n", [Cell.int 0]),
       ("start", [Cell.str "10"]),
       ("duration", [Cell.str "1"]),
       ("metric_0", [Cell.num ⟨5, 1⟩]),
       ("pipeline", [Cell.str "P1"]),
       ("id", [Cell.str "id1"]),
       ("metric_0_cummax", [Cell.num ⟨5, 1⟩])]⟩

/-- Two evaluation events of differing fitness arities 1 and 2. -/
def arityMixLines : List (List String) :=
  [["10", "1", "1", "(0.5)", "id1", "P1", "11"],
   ["12", "2", "2", "(0.25,4.0)", "id2", "P2", "13"]]

/-! ## Basic lemmas: the `Except` monad -/

theorem bind_ok_iff {ε α β : Type} {e : Except ε α} {f : α → Except ε β} {b : β} :
    e >>= f = Except.ok b ↔ ∃ a, e = Except.ok a ∧ f a = Except.ok b := by
  constructor
  · intro h
    cases e with
    | error err => exact absurd h (by intro hc; cases hc)
    | ok a => exact ⟨a, rfl, h⟩
  · rintro ⟨a, ha, hf⟩
    subst ha
    exact hf

theorem bind_ok_elim {ε α β : Type} {e : Except ε α} {f : α → Except ε β} {b : β}
    (h : e >>= f = Except.ok b) : ∃ a, e = Except.ok a ∧ f a = Except.ok b :=
  bind_ok_iff.mp h

@[simp] theorem ok_bind {ε α β : Type} (a : α) (f : α → Except ε β) :
    (Except.ok a >>= f : Except ε β) = f a := rfl

@[simp] theorem error_bind {ε α β : Type} (e : ε) (f : α → Except ε β) :
    (Except.error e >>= f : Except ε β) = Except.error e := rfl

/-! ## Basic lemmas: the exact-decimal order -/

theorem Dec.le_refl (a : Dec) : Dec.le a a := Int.le_refl _

theorem Dec.le_total (a b : Dec) : Dec.le a b ∨ Dec.le b a := Int.le_total _ _

theorem Dec.le_of_not_le {a b : Dec} (h : ¬ Dec.le a b) : Dec.le b a :=
  (Dec.le_total a b).resolve_left h

theorem Dec.ten_pow_pos (n : ℕ) : (0 : ℤ) < 10 ^ n := pow_pos (by norm_num) n

theorem Dec.le_trans {a b c : Dec} (h1 : Dec.le a b) (h2 : Dec.le b c) : Dec.le a c := by
  unfold Dec.le at h1 h2 ⊢
  have k1 := mul_le_mul_of_nonneg_right h1 (Dec.ten_pow_pos c.exp).le
  have k2 := mul_le_mul_of_nonneg_right h2 (Dec.ten_pow_pos a.exp).le
  have k3 : a.mant * 10 ^ c.exp * 10 ^ b.exp ≤ c.mant * 10 ^ a.exp * 10 ^ b.exp := by
    nlinarith [k1, k2]
  exact le_of_mul_le_mul_right k3 (Dec.ten_pow_pos b.exp)

theorem Dec.le_max_left (a b : Dec) : Dec.le a (Dec.max a b) := by
  unfold Dec.max
  split
  · assumption
  · exact Dec.le_refl a

theorem Dec.le_max_right (a b : Dec) : Dec.le b (Dec.max a b) := by
  unfold Dec.max
  split
  · exact Dec.le_refl b
  · exact Dec.le_of_not_le (by assumption)

theorem Dec.max_cases (a b : Dec) : Dec.max a b = a ∨ Dec.max a b = b := by
  unfold Dec.max
  split
  · exact Or.inr rfl
  · exact Or.inl rfl

/-! ## Basic lemmas: Python string splitting -/

theorem splitChars_ne_nil (sep : Char) (l : List Char) : splitChars sep l ≠ [] := by
  induction l with
  | nil => simp [splitChars]
  | cons c rest ih =>
    simp only [splitChars]
    split
    · simp
    · cases hr : splitChars sep rest with
      | nil => exact absurd hr ih
      | cons g gs => simp

theorem splitChars_of_not_mem {sep : Char} {l : List Char} (h : sep ∉ l) :
    splitChars sep l = [l] := by
  induction l with
  | nil => rfl
  | cons c rest ih =>
    simp only [List.mem_cons, not_or] at h
    simp only [splitChars]
    rw [if_neg (fun hc => h.1 hc.symm), ih h.2]

theorem splitChars_append_sep {sep : Char} {l1 : List Char} (l2 : List Char)
    (h : sep ∉ l1) :
    splitChars sep (l1 ++ sep :: l2) = l1 :: splitChars sep l2 := by
  induction l1 with
  | nil =>
    simp [splitChars]
  | cons c rest ih =>
    simp only [List.mem_cons, not_or] at h
    rw [List.cons_append]
    simp only [splitChars]
    rw [if_neg (fun hc => h.1 hc.symm), ih h.2]

/-! ## Basic lemmas: decimal digit strings -/

theorem digitCh_isDigit (d : ℕ) : (digitCh d).isDigit = true := by
  unfold digitCh
  split <;> decide

theorem natChars_digits (fuel n : ℕ) : ∀ c ∈ natChars fuel n, c.isDigit = true := by
  induction fuel generalizing n with
  | zero => intro c hc; simp [natChars] at hc
  | succ fuel ih =>
    intro c hc
    simp only [natChars] at hc
    split at hc
    · simp only [List.mem_singleton] at hc
      exact hc ▸ digitCh_isDigit n
    · rcases List.mem_append.mp hc with h | h
      · exact ih (n / 10) c h
      · simp only [List.mem_singleton] at h
        exact h ▸ digitCh_isDigit (n % 10)

theorem natStr_digits (n : ℕ) : ∀ c ∈ (natStr n).data, c.isDigit = true :=
  natChars_digits (n + 1) n

/-! ## The running maximum, abstractly -/

/-- Running maxima of a value list, continuing from the maximum `c` seen
so far. -/
def runGo (c : Dec) : List Dec → List Dec
  | [] => []
  | q :: rest => Dec.max c q :: runGo (Dec.max c q) rest

/-- Running maxima of a value list: entry `i` is the maximum of the
values at indices `0..i`. -/
def runMax : List Dec → List Dec
  | [] => []
  | q :: rest => q :: runGo q rest

@[simp] theorem runGo_length (c : Dec) (qs : List Dec) : (runGo c qs).length = qs.length := by
  induction qs generalizing c with
  | nil => rfl
  | cons q rest ih => simp [runGo, ih]

@[simp] theorem runMax_length (qs : List Dec) : (runMax qs).length = qs.length := by
  cases qs with
  | nil => rfl
  | cons q rest => simp [runMax]

/-- Every entry of `runGo c qs` dominates `c`. -/
theorem runGo_le_start (c : Dec) (qs : List Dec) :
    ∀ i < qs.length, Dec.le c ((runGo c qs).getD i ⟨0, 0⟩) := by
  induction qs generalizing c with
  | nil => intro i hi; simp at hi
  | cons q rest ih =>
    intro i hi
    cases i with
    | zero => exact Dec.le_max_left c q
    | succ i =>
      simp only [runGo, List.getD_cons_succ]
      exact Dec.le_trans (Dec.le_max_left c q)
        (ih (Dec.max c q) i (by simpa using Nat.lt_of_succ_lt_succ hi))

/-- Entry `i` of `runGo c qs` dominates every value at an index `≤ i`. -/
theorem runGo_bound (c : Dec) (qs : List Dec) :
    ∀ i < qs.length, ∀ j ≤ i, Dec.le (qs.getD j ⟨0, 0⟩) ((runGo c qs).getD i ⟨0, 0⟩) := by
  induction qs generalizing c with
  | nil => intro i hi; simp at hi
  | cons q rest ih =>
    intro i hi j hj
    cases i with
    | zero =>
      interval_cases j
      exact Dec.le_max_right c q
    | succ i =>
      have hi' : i < rest.length := by simpa using Nat.lt_of_succ_lt_succ hi
      cases j with
      | zero =>
        simp only [runGo, List.getD_cons_zero, List.getD_cons_succ]
        exact Dec.le_trans (Dec.le_max_right c q) (runGo_le_start (Dec.max c q) rest i hi')
      | succ j =>
        simp only [runGo, List.getD_cons_succ]
        exact ih (Dec.max c q) i hi' j (Nat.le_of_succ_le_succ hj)

/-- Entry `i` of `runGo c qs` is `c` or one of the values at `0..i`. -/
theorem runGo_attained (c : Dec) (qs : List Dec) :
    ∀ i < qs.length, (runGo c qs).getD i ⟨0, 0⟩ = c ∨
      ∃ j ≤ i, (runGo c qs).getD i ⟨0, 0⟩ = qs.getD j ⟨0, 0⟩ := by
  induction qs generalizing c with
  | nil => intro i hi; simp at hi
  | cons q rest ih =>
    intro i hi
    cases i with
    | zero =>
      rcases Dec.max_cases c q with h | h
      · exact Or.inl h
      · exact Or.inr ⟨0, Nat.le_refl 0, h⟩
    | succ i =>
      have hi' : i < rest.length := by simpa using Nat.lt_of_succ_lt_succ hi
      simp only [runGo, List.getD_cons_succ]
      rcases ih (Dec.max c q) i hi' with h | ⟨j, hj, h⟩
      · rcases Dec.max_cases c q with hm | hm
        · exact Or.inl (h.trans hm)
        · exact Or.inr ⟨0, Nat.zero_le _, by simpa [hm] using h⟩
      · exact Or.inr ⟨j + 1, Nat.succ_le_succ hj, by simpa using h⟩

/-- `runGo` is monotone along the list. -/
theorem runGo_mono (c : Dec) (qs : List Dec) :
    ∀ i i', i ≤ i' → i' < qs.length →
      Dec.le ((runGo c qs).getD i ⟨0, 0⟩) ((runGo c qs).getD i' ⟨0, 0⟩) := by
  induction qs generalizing c with
  | nil => intro i i' _ hi'; simp at hi'
  | cons q rest ih =>
    intro i i' hii hi'
    cases i' with
    | zero =>
      interval_cases i
      exact Dec.le_refl _
    | succ i' =>
      have hi'' : i' < rest.length := by simpa using Nat.lt_of_succ_lt_succ hi'
      cases i with
      | zero =>
        simp only [runGo, List.getD_cons_zero, List.getD_cons_succ]
        exact runGo_le_start (Dec.max c q) rest i' hi''
      | succ i =>
        simp only [runGo, List.getD_cons_succ]
        exact ih (Dec.max c q) i i' (Nat.le_of_succ_le_succ hii) hi''

/-- Entry `i` of `runMax qs` dominates every value at an index `≤ i`. -/
theorem runMax_bound (qs : List Dec) :
    ∀ i < qs.length, ∀ j ≤ i, Dec.le (qs.getD j ⟨0, 0⟩) ((runMax qs).getD i ⟨0, 0⟩) := by
  cases qs with
  | nil => intro i hi; simp at hi
  | cons q rest =>
    intro i hi j hj
    cases i with
    | zero =>
      interval_cases j
      exact Dec.le_refl q
    | succ i =>
      have hi' : i < rest.length := by simpa using Nat.lt_of_succ_lt_succ hi
      cases j with
      | zero =>
        simp only [runMax, List.getD_cons_zero, List.getD_cons_succ]
        exact runGo_le_start q rest i hi'
      | succ j =>
        simp only [runMax, List.getD_cons_succ]
        exact runGo_bound q rest i hi' j (Nat.le_of_succ_le_succ hj)

/-- Entry `i` of `runMax qs` is attained by one of the values at `0..i`. -/
theorem runMax_attained (qs : List Dec) :
    ∀ i < qs.length, ∃ j ≤ i, (runMax qs).getD i ⟨0, 0⟩ = qs.getD j ⟨0, 0⟩ := by
  cases qs with
  | nil => intro i hi; simp at hi
  | cons q rest =>
    intro i hi
    cases i with
    | zero => exact ⟨0, Nat.le_refl 0, rfl⟩
    | succ i =>
      have hi' : i < rest.length := by simpa using Nat.lt_of_succ_lt_succ hi
      simp only [runMax, List.getD_cons_succ]
      rcases runGo_attained q rest i hi' with h | ⟨j, hj, h⟩
      · exact ⟨0, Nat.zero_le _, h⟩
      · exact ⟨j + 1, Nat.succ_le_succ hj, by simpa using h⟩

/-- The running maximum is monotonically non-decreasing. -/
theorem runMax_mono (qs : List Dec) :
    ∀ i i', i ≤ i' → i' < qs.length →
      Dec.le ((runMax qs).getD i ⟨0, 0⟩) ((runMax qs).getD i' ⟨0, 0⟩) := by
  cases qs with
  | nil => intro i i' _ hi'; simp at hi'
  | cons q rest =>
    intro i i' hii hi'
    cases i' with
    | zero =>
      interval_cases i
      exact Dec.le_refl q
    | succ i' =>
      have hi'' : i' < rest.length := by simpa using Nat.lt_of_succ_lt_succ hi'
      cases i with
      | zero =>
        simp only [runMax, List.getD_cons_zero, List.getD_cons_succ]
        exact runGo_le_start q rest i' hi''
      | succ i =>
        simp only [runMax, List.getD_cons_succ]
        exact runGo_mono q rest i i' (Nat.le_of_succ_le_succ hii) hi''

/-! ## Lemmas about `cummax` -/

/-- A successful `cummax` saw no string cell. -/
theorem cummaxGo_no_str {cur : Option Dec} {cells out : List Cell}
    (h : cummaxGo cur cells = Except.ok out) : ∀ s, Cell.str s ∉ cells := by
  induction cells generalizing cur out with
  | nil => intro s hs; simp at hs
  | cons c rest ih =>
    intro s hs
    rcases List.mem_cons.mp hs with rfl | hs'
    · simp [cummaxGo] at h
    · cases c with
      | num q =>
        simp only [cummaxGo] at h
        obtain ⟨tail, ht, _⟩ := bind_ok_elim h
        exact ih ht s hs'
      | int n =>
        simp only [cummaxGo] at h
        obtain ⟨tail, ht, _⟩ := bind_ok_elim h
        exact ih ht s hs'
      | str t => simp [cummaxGo] at h
      | na =>
        simp only [cummaxGo] at h
        obtain ⟨tail, ht, _⟩ := bind_ok_elim h
        exact ih ht s hs'

/-- `cummax` on an all-numeric column is the running maximum. -/
theorem cummaxGo_num (c : Dec) (qs : List Dec) :
    cummaxGo (some c) (qs.map Cell.num) = Except.ok ((runGo c qs).map Cell.num) := by
  induction qs generalizing c with
  | nil => rfl
  | cons q rest ih =>
    simp only [List.map_cons, cummaxGo, runGo, ih (Dec.max c q)]
    rfl

theorem cummaxCells_num (qs : List Dec) :
    cummaxCells (qs.map Cell.num) = Except.ok ((runMax qs).map Cell.num) := by
  cases qs with
  | nil => rfl
  | cons q rest =>
    simp only [cummaxCells, List.map_cons, cummaxGo, runMax, cummaxGo_num q rest]
    rfl

/-! ## Lemmas about the evaluation rows -/

theorem parseFloatList_length {ss : List String} {vs : List Dec}
    (h : parseFloatList ss = Except.ok vs) : vs.length = ss.length := by
  induction ss generalizing vs with
  | nil =>
    simp only [parseFloatList] at h
    cases h
    rfl
  | cons s rest ih =>
    simp only [parseFloatList] at h
    obtain ⟨v, _, h2⟩ := bind_ok_elim h
    obtain ⟨tl, htl, h3⟩ := bind_ok_elim h2
    cases h3
    simp [ih htl]

/-- A successful `evalRow` call: the line had exactly the seven fields,
the fitness tuple parsed, and the emitted row is
`[i, time, duration, *values, pipeline, id]`. -/
theorem evalRow_ok {i : ℕ} {line : List String} {row : List Cell}
    (h : evalRow i line = Except.ok row) :
    ∃ t d pd f id_ p lt vs, line = [t, d, pd, f, id_, p, lt] ∧
      pyFloats f = Except.ok vs ∧
      row = [Cell.int i, Cell.str t, Cell.str d] ++ vs.map Cell.num ++
        [Cell.str p, Cell.str id_] := by
  match line with
  | [] | [_] | [_, _] | [_, _, _] | [_, _, _, _] | [_, _, _, _, _]
  | [_, _, _, _, _, _] => exact Except.noConfusion h
  | _ :: _ :: _ :: _ :: _ :: _ :: _ :: _ :: _ => exact Except.noConfusion h
  | [t, d, pd, f, id_, p, lt] =>
    simp only [evalRow] at h
    obtain ⟨vs, hvs, h2⟩ := bind_ok_elim h
    cases h2
    exact ⟨t, d, pd, f, id_, p, lt, vs, rfl, hvs, rfl⟩

/-- A successful `buildRows` run: one row per line, each produced by
`evalRow` at its enumeration index. -/
theorem buildRows_ok {i : ℕ} {lines : List (List String)} {rows : List (List Cell)}
    (h : buildRows i lines = Except.ok rows) :
    rows.length = lines.length ∧
      ∀ j < lines.length, evalRow (i + j) (lines.getD j []) = Except.ok (rows.getD j []) := by
  induction lines generalizing i rows with
  | nil =>
    simp only [buildRows] at h
    cases h
    exact ⟨rfl, by intro j hj; simp at hj⟩
  | cons line rest ih =>
    simp only [buildRows] at h
    obtain ⟨r, hr, h2⟩ := bind_ok_elim h
    obtain ⟨rs, hrs, h3⟩ := bind_ok_elim h2
    cases h3
    obtain ⟨hlen, hall⟩ := ih hrs
    refine ⟨by simp [hlen], ?_⟩
    intro j hj
    cases j with
    | zero => simpa using hr
    | succ j =>
      have hstep := hall j (by simpa using Nat.lt_of_succ_lt_succ hj)
      have harith : i + (j + 1) = (i + 1) + j := by omega
      rw [List.getD_cons_succ, List.getD_cons_succ, harith]
      exact hstep

/-! ## Lemmas about association-list columns -/

@[simp] theorem lookup_cons_self {β : Type} {c : String × β} {rest : List (String × β)}
    {m : String} (h : m = c.1) : (c :: rest).lookup m = some c.2 := by
  have hb : (m == c.1) = true := beq_iff_eq.mpr h
  simp [List.lookup, hb]

theorem lookup_cons_ne {β : Type} {c : String × β} {rest : List (String × β)}
    {m : String} (h : ¬ m = c.1) : (c :: rest).lookup m = rest.lookup m := by
  have hb : (m == c.1) = false := beq_eq_false_iff_ne.mpr h
  simp [List.lookup, hb]

theorem lookup_of_mem_keys {β : Type} {l : List (String × β)} {m : String}
    (h : m ∈ l.map Prod.fst) : ∃ v, l.lookup m = some v := by
  induction l with
  | nil => simp at h
  | cons c rest ih =>
    by_cases hm : m = c.1
    · exact ⟨c.2, lookup_cons_self hm⟩
    · simp only [List.map_cons, List.mem_cons] at h
      rcases h with h1 | h1
      · exact absurd h1 hm
      · obtain ⟨v, hv⟩ := ih h1
        exact ⟨v, (lookup_cons_ne hm).trans hv⟩

theorem lookup_append_of_some {β : Type} {l l' : List (String × β)} {m : String}
    {v : β} (h : l.lookup m = some v) : (l ++ l').lookup m = some v := by
  induction l with
  | nil => simp [List.lookup] at h
  | cons c rest ih =>
    by_cases hm : m = c.1
    · rw [List.cons_append, lookup_cons_self hm]
      rw [lookup_cons_self hm] at h
      exact h
    · rw [List.cons_append, lookup_cons_ne hm]
      rw [lookup_cons_ne hm] at h
      exact ih h

theorem lookup_append_of_none {β : Type} {l l' : List (String × β)} {m : String}
    (h : l.lookup m = none) : (l ++ l').lookup m = l'.lookup m := by
  induction l with
  | nil => simp
  | cons c rest ih =>
    by_cases hm : m = c.1
    · rw [lookup_cons_self hm] at h
      exact absurd h (by simp)
    · rw [List.cons_append, lookup_cons_ne hm]
      rw [lookup_cons_ne hm] at h
      exact ih h

theorem lookup_eq_none_of_not_mem_keys {β : Type} {l : List (String × β)} {m : String}
    (h : m ∉ l.map Prod.fst) : l.lookup m = none := by
  induction l with
  | nil => rfl
  | cons c rest ih =>
    simp only [List.map_cons, List.mem_cons, not_or] at h
    rw [lookup_cons_ne h.1]
    exact ih h.2

/-! ## Lemmas about strings -/

theorem str_ext {a b : String} (h : a.data = b.data) : a = b := congrArg String.mk h

theorem str_data_append (a b : String) : (a ++ b).data = a.data ++ b.data := rfl

theorem str_append_cancel_right {a b c : String} (h : a ++ c = b ++ c) : a = b := by
  have hd : a.data ++ c.data = b.data ++ c.data := by
    rw [← str_data_append, ← str_data_append, h]
  exact str_ext (List.append_cancel_right hd)

/-- No string of decimal digits is some string followed by `"_cummax"`:
`'_'` is not a digit. -/
theorem digits_ne_append_cummax {s b : String}
    (hs : ∀ c ∈ s.data, c.isDigit = true) : s ≠ b ++ "_cummax" := by
  intro h
  have hd : s.data = b.data ++ "_cummax".data := by rw [h, str_data_append]
  have hmem : '_' ∈ s.data := by
    rw [hd]
    exact List.mem_append_right _ (by decide)
  have := hs '_' hmem
  simp at this

/-- Distinct synthesized metric names never collide with each other's
derived `cummax` labels. -/
theorem syntheticNames_safe (k : ℕ) :
    ∀ a ∈ syntheticNames k, ∀ b ∈ syntheticNames k, a ≠ b ++ "_cummax" := by
  intro a ha b hb
  simp only [syntheticNames, List.mem_map, List.mem_range] at ha hb
  obtain ⟨i, _, rfl⟩ := ha
  obtain ⟨j, _, rfl⟩ := hb
  intro h
  have hd : ("metric_" ++ natStr i).data = (("metric_" ++ natStr j) ++ "_cummax").data := by
    rw [h]
  rw [str_data_append, str_data_append, str_data_append, List.append_assoc] at hd
  have hd2 : (natStr i).data = (natStr j).data ++ "_cummax".data :=
    List.append_cancel_left hd
  have hmem : '_' ∈ (natStr i).data := by
    rw [hd2]
    exact List.mem_append_right _ (by decide)
  have := natStr_digits i '_' hmem
  simp at this

/-! ## Lemmas about the DataFrame fragment -/

theorem transposeCols_keys (rows : List (List Cell)) (i : ℕ) (names : List String) :
    (transposeCols rows i names).map Prod.fst = names := by
  induction names generalizing i with
  | nil => rfl
  | cons nm rest ih => simp [transposeCols, ih]

theorem transposeCols_lookup_skip {m : String} {l1 : List String} (l2 : List String)
    (rows : List (List Cell)) (i : ℕ) (h : m ∉ l1) :
    (transposeCols rows i (l1 ++ l2)).lookup m =
      (transposeCols rows (i + l1.length) l2).lookup m := by
  induction l1 generalizing i with
  | nil => simp [transposeCols]
  | cons nm rest ih =>
    simp only [List.mem_cons, not_or] at h
    rw [List.cons_append]
    simp only [transposeCols]
    rw [lookup_cons_ne h.1, ih (i + 1) h.2]
    have heq : i + 1 + rest.length = i + (nm :: rest).length := by
      simp only [List.length_cons]
      omega
    rw [heq]

theorem transposeCols_lookup_head (rows : List (List Cell)) (i : ℕ) (m : String)
    (rest : List String) :
    (transposeCols rows i (m :: rest)).lookup m =
      some (rows.map (fun r => r.getD i Cell.na)) := by
  simp only [transposeCols]
  exact lookup_cons_self rfl

theorem mkDataFrame_ok {rows : List (List Cell)} {names : List String} {df : DataFrame}
    (h : mkDataFrame rows names = Except.ok df) :
    df.nrows = rows.length ∧ df.cols = transposeCols rows 0 names ∧
      ∀ r ∈ rows, r.length ≤ names.length := by
  unfold mkDataFrame at h
  split at h
  · cases h
    refine ⟨rfl, rfl, ?_⟩
    intro r hr
    exact of_decide_eq_true (List.all_eq_true.mp (by assumption) r hr)
  · cases h

theorem filter_keys_length (l : List (String × List Cell)) (m : String) :
    (l.filter (fun c => c.1 = m)).length = (l.map Prod.fst).count m := by
  induction l with
  | nil => rfl
  | cons c rest ih =>
    by_cases hm : c.1 = m
    · simp [List.filter, List.count_cons, hm, ih]
    · simp [List.filter, List.count_cons, hm, Ne.symm hm, ih]

theorem colCount_eq (df : DataFrame) (m : String) :
    df.colCount m = df.colNames.count m :=
  filter_keys_length df.cols m

theorem setCol_nrows (df : DataFrame) (n : String) (cs : List Cell) :
    (df.setCol n cs).nrows = df.nrows := by
  unfold DataFrame.setCol
  split <;> rfl

theorem setCol_fresh_cols {df : DataFrame} {n : String} (h : n ∉ df.colNames)
    (cs : List Cell) : (df.setCol n cs).cols = df.cols ++ [(n, cs)] := by
  unfold DataFrame.setCol
  rw [if_neg h]

/-! ### Count bounds derived from a successful loop -/

theorem setCol_keys_or_append (df : DataFrame) (n : String) (cs : List Cell) :
    (df.setCol n cs).colNames = df.colNames ∨
      (df.setCol n cs).colNames = df.colNames ++ [n] := by
  unfold DataFrame.setCol
  split
  · left
    unfold DataFrame.colNames
    simp only [List.map_map]
    apply List.map_congr_left
    intro c _
    simp only [Function.comp]
    split <;> rfl
  · right
    unfold DataFrame.colNames
    simp

theorem colCount_le_setCol (df : DataFrame) (n : String) (cs : List Cell) (m : String) :
    df.colCount m ≤ (df.setCol n cs).colCount m := by
  rw [colCount_eq, colCount_eq]
  rcases setCol_keys_or_append df n cs with h | h
  · rw [h]
  · rw [h, List.count_append]
    omega

/-- A successful loop step, without freshness assumptions: the
single-column guard held, `cummax` succeeded and the result is the
column assignment. -/
theorem addCummaxColumn_ok_elim {df d : DataFrame} {m : String}
    (h : addCummaxColumn df m = Except.ok d) :
    df.colCount m = 1 ∧ ∃ cm, cummaxCells (df.col m) = Except.ok cm ∧
      d = df.setCol (m ++ "_cummax") cm := by
  unfold addCummaxColumn at h
  split at h
  · obtain ⟨cm, hcm, h2⟩ := bind_ok_elim h
    cases h2
    exact ⟨by assumption, cm, hcm, rfl⟩
  · cases h

/-- If the whole loop succeeded, every processed label occurred exactly
once already in the starting frame (label counts never decrease along
the loop, and each step's guard demands exactly one). -/
theorem addCummaxColumns_count_le {names : List String} :
    ∀ {df df' : DataFrame}, addCummaxColumns df names = Except.ok df' →
      ∀ m ∈ names, df.colCount m ≤ 1 := by
  induction names with
  | nil => intro df df' _ m hm; simp at hm
  | cons m0 rest ih =>
    intro df df' h m hm
    simp only [addCummaxColumns] at h
    obtain ⟨d, h1, h2⟩ := bind_ok_elim h
    obtain ⟨hc, cm, _, hd⟩ := addCummaxColumn_ok_elim h1
    rcases List.mem_cons.mp hm with rfl | hm'
    · omega
    · have := ih h2 m hm'
      have hmono := colCount_le_setCol df (m0 ++ "_cummax") cm m
      rw [← hd] at hmono
      omega


/-- The single successful step of the derived-column loop, on a fresh
label: the guard held, `cummax` succeeded, and the new column was
appended. -/
theorem addCummaxColumn_ok_fresh {df d : DataFrame} {m : String}
    (h : addCummaxColumn df m = Except.ok d)
    (hfresh : (m ++ "_cummax") ∉ df.colNames) :
    df.colCount m = 1 ∧ ∃ cm, cummaxCells (df.col m) = Except.ok cm ∧
      d.cols = df.cols ++ [(m ++ "_cummax", cm)] ∧ d.nrows = df.nrows := by
  unfold addCummaxColumn at h
  split at h
  · obtain ⟨cm, hcm, h2⟩ := bind_ok_elim h
    cases h2
    refine ⟨by assumption, cm, hcm, ?_, setCol_nrows df _ cm⟩
    rw [setCol_fresh_cols hfresh]
  · cases h

/-- Success of the whole derived-column loop over pairwise-distinct
metric names none of which is another's `cummax` label: every step
appends a fresh column, so the final frame is the base frame followed by
one `cummax` column per metric, the base columns are untouched, and each
`cummax` column is the successful `cummax` of its base column. -/
theorem addCummaxColumns_ok {names : List String} :
    ∀ {df df' : DataFrame},
      addCummaxColumns df names = Except.ok df' →
      names.Nodup →
      (∀ a ∈ names, ∀ b ∈ names, a ≠ b ++ "_cummax") →
      (∀ m ∈ names, (m ++ "_cummax") ∉ df.colNames) →
      (∀ m ∈ names, df.colCount m = 1) →
      df'.colNames = df.colNames ++ names.map (fun m => m ++ "_cummax") ∧
        df'.nrows = df.nrows ∧
        (∀ nm ∈ df.colNames, df'.col nm = df.col nm) ∧
        (∀ m ∈ names, ∃ cm, cummaxCells (df.col m) = Except.ok cm ∧
          df'.col (m ++ "_cummax") = cm) := by
  induction names with
  | nil =>
    intro df df' h _ _ _ _
    simp only [addCummaxColumns] at h
    cases h
    exact ⟨by simp, rfl, fun nm _ => rfl, fun m hm => absurd hm (by simp)⟩
  | cons m rest ih =>
    intro df df' h hnd hsafe hfresh hcount
    simp only [addCummaxColumns] at h
    obtain ⟨d, h1, h2⟩ := bind_ok_elim h
    have hfm : (m ++ "_cummax") ∉ df.colNames := hfresh m (List.mem_cons_self m rest)
    obtain ⟨hc1, cm, hcm, hdcols, hdn⟩ := addCummaxColumn_ok_fresh h1 hfm
    have hdkeys : d.colNames = df.colNames ++ [m ++ "_cummax"] := by
      simp [DataFrame.colNames, hdcols]
    have hmemdf : ∀ m' ∈ m :: rest, m' ∈ df.colNames := by
      intro m' hm'
      have hcnt := hcount m' hm'
      rw [colCount_eq] at hcnt
      exact List.count_pos_iff.mp (by omega)
    have hnd' : rest.Nodup := (List.nodup_cons.mp hnd).2
    have hm_notin : m ∉ rest := (List.nodup_cons.mp hnd).1
    have hsafe' : ∀ a ∈ rest, ∀ b ∈ rest, a ≠ b ++ "_cummax" := fun a ha b hb =>
      hsafe a (List.mem_cons_of_mem m ha) b (List.mem_cons_of_mem m hb)
    have hfresh' : ∀ m' ∈ rest, (m' ++ "_cummax") ∉ d.colNames := by
      intro m' hm'
      rw [hdkeys]
      intro hmem
      rcases List.mem_append.mp hmem with hA | hA
      · exact hfresh m' (List.mem_cons_of_mem m hm') hA
      · have heq : m' ++ "_cummax" = m ++ "_cummax" := by simpa using hA
        exact hm_notin (str_append_cancel_right heq ▸ hm')
    have hcount' : ∀ m' ∈ rest, d.colCount m' = 1 := by
      intro m' hm'
      have hne : m' ≠ m ++ "_cummax" :=
        hsafe m' (List.mem_cons_of_mem m hm') m (List.mem_cons_self m rest)
      have hsplit : d.colCount m' = df.colCount m' + List.count m' [m ++ "_cummax"] := by
        rw [colCount_eq, colCount_eq, hdkeys, List.count_append]
      rw [hsplit, hcount m' (List.mem_cons_of_mem m hm')]
      simp [List.count_cons, hne]
    have hcolpres : ∀ nm ∈ df.colNames, d.col nm = df.col nm := by
      intro nm hnm
      obtain ⟨v, hv⟩ := lookup_of_mem_keys hnm
      unfold DataFrame.col
      rw [hdcols, lookup_append_of_some hv, hv]
    obtain ⟨ih1, ih2, ih3, ih4⟩ := ih h2 hnd' hsafe' hfresh' hcount'
    refine ⟨?_, ?_, ?_, ?_⟩
    · rw [ih1, hdkeys]
      simp
    · rw [ih2, hdn]
    · intro nm hnm
      have hnm' : nm ∈ d.colNames := by
        rw [hdkeys]
        exact List.mem_append_left _ hnm
      rw [ih3 nm hnm', hcolpres nm hnm]
    · intro m' hm'
      rcases List.mem_cons.mp hm' with rfl | hm'
      · refine ⟨cm, hcm, ?_⟩
        have hmc_mem : (m' ++ "_cummax") ∈ d.colNames := by
          rw [hdkeys]
          exact List.mem_append_right _ (by simp)
        rw [ih3 _ hmc_mem]
        unfold DataFrame.col
        rw [hdcols, lookup_append_of_none (lookup_eq_none_of_not_mem_keys hfm)]
        simp [List.lookup]
      · obtain ⟨cm', hcm', hcol'⟩ := ih4 m' hm'
        refine ⟨cm', ?_, hcol'⟩
        rw [hcolpres m' (hmemdf m' (List.mem_cons_of_mem m hm'))] at hcm'
        exact hcm'

/-! ## Characterizing a successful evaluation-table build -/

@[simp] theorem lookup_cons_pair_self {β : Type} (k : String) (v : β)
    (rest : List (String × β)) : ((k, v) :: rest).lookup k = some v := by
  simp [List.lookup]

theorem lookup_cons_pair_ne {β : Type} {m k : String} (h : ¬ m = k) (v : β)
    (rest : List (String × β)) : ((k, v) :: rest).lookup m = rest.lookup m := by
  have hb : (m == k) = false := beq_eq_false_iff_ne.mpr h
  simp [List.lookup, hb]

/-- A label ending in `"_cummax"` is none of the fixed column labels
(no fixed label contains an underscore). -/
theorem append_cummax_ne {s : String} (hs : '_' ∉ s.data) (m : String) :
    m ++ "_cummax" ≠ s := by
  intro h
  have hmem : '_' ∈ (m ++ "_cummax").data := by
    rw [str_data_append]
    exact List.mem_append_right _ (by decide)
  rw [h] at hmem
  exact hs hmem

theorem getD_mem_of_lt {l : List (List Cell)} {j : ℕ} (hj : j < l.length) :
    l.getD j [] ∈ l := by
  rw [List.getD_eq_getElem l [] hj]
  exact List.getElem_mem hj

/-- Decomposition of a successful `_evaluations_to_dataframe` run into
its four stages. -/
theorem builder_ok_elim {lines : List (List String)} {mn : Option (List String)}
    {df : DataFrame} (h : _evaluations_to_dataframe lines mn = Except.ok df) :
    ∃ rows names df0,
      buildRows 0 lines = Except.ok rows ∧
      resolveNames rows mn = Except.ok names ∧
      mkDataFrame rows (["n", "start", "duration"] ++ names ++ ["pipeline", "id"]) =
        Except.ok df0 ∧
      addCummaxColumns df0 names = Except.ok df := by
  unfold _evaluations_to_dataframe at h
  obtain ⟨rows, h1, h2⟩ := bind_ok_elim h
  obtain ⟨names, h3, h4⟩ := bind_ok_elim h2
  obtain ⟨df0, h5, h6⟩ := bind_ok_elim h4
  exact ⟨rows, names, df0, h1, h3, h5, h6⟩

/-- Looking up the `j`-th of a duplicate-free label block finds the
column built from row position `i + j`. -/
theorem transposeCols_lookup_names {ns : List String} :
    ∀ (tail : List String) (rows : List (List Cell)) (i j : ℕ), j < ns.length → ns.Nodup →
      (transposeCols rows i (ns ++ tail)).lookup (ns.getD j "") =
        some (rows.map (fun r => r.getD (i + j) Cell.na)) := by
  induction ns with
  | nil => intro tail rows i j hj _; simp at hj
  | cons nm rest ih =>
    intro tail rows i j hj hnd
    rw [List.cons_append]
    simp only [transposeCols]
    cases j with
    | zero =>
      simp only [List.getD_cons_zero]
      rw [lookup_cons_pair_self]
      simp
    | succ j =>
      have hnd' := List.nodup_cons.mp hnd
      have hj' : j < rest.length := by simpa using Nat.lt_of_succ_lt_succ hj
      have hmem : rest.getD j "" ∈ rest := by
        rw [List.getD_eq_getElem rest "" hj']
        exact List.getElem_mem hj'
      have hne : ¬ rest.getD j "" = nm := fun he => hnd'.1 (he ▸ hmem)
      simp only [List.getD_cons_succ]
      rw [lookup_cons_pair_ne hne, ih tail rows (i + 1) j hj' hnd'.2]
      have heq : i + 1 + j = i + (j + 1) := by omega
      rw [heq]

/-- Structure of the rows emitted by a successful evaluation loop. -/
theorem buildRows_struct {lines : List (List String)} {rows : List (List Cell)}
    (h : buildRows 0 lines = Except.ok rows) :
    rows.length = lines.length ∧
      ∀ j < lines.length, ∃ t d pd f id_ p lt vs,
        lines.getD j [] = [t, d, pd, f, id_, p, lt] ∧
        pyFloats f = Except.ok vs ∧
        rows.getD j [] = [Cell.int j, Cell.str t, Cell.str d] ++ vs.map Cell.num ++
          [Cell.str p, Cell.str id_] := by
  obtain ⟨hlen, hall⟩ := buildRows_ok h
  refine ⟨hlen, ?_⟩
  intro j hj
  have he := hall j hj
  rw [Nat.zero_add] at he
  exact evalRow_ok he

/-- Under the no-collision condition, every derived `cummax` label is
fresh for the base column labels. -/
theorem cummax_fresh {names : List String}
    (hsafe : ∀ a ∈ names, ∀ b ∈ names, a ≠ b ++ "_cummax") :
    ∀ m ∈ names,
      (m ++ "_cummax") ∉ ["n", "start", "duration"] ++ names ++ ["pipeline", "id"] := by
  intro m hm hmem
  rcases List.mem_append.mp hmem with h1 | h1
  · rcases List.mem_append.mp h1 with h2 | h2
    · simp only [List.mem_cons, List.not_mem_nil, or_false] at h2
      rcases h2 with h | h | h
      · exact append_cummax_ne (by decide) m h
      · exact append_cummax_ne (by decide) m h
      · exact append_cummax_ne (by decide) m h
    · exact hsafe (m ++ "_cummax") h2 m hm rfl
  · simp only [List.mem_cons, List.not_mem_nil, or_false] at h1
    rcases h1 with h | h
    · exact append_cummax_ne (by decide) m h
    · exact append_cummax_ne (by decide) m h

/-- From per-label count bounds on the base frame: the metric names are
duplicate-free, none is a fixed label, and every count is exactly 1. -/
theorem names_count_facts {names : List String} {df0 : DataFrame}
    (hkeys : df0.colNames = ["n", "start", "duration"] ++ names ++ ["pipeline", "id"])
    (hle : ∀ m ∈ names, df0.colCount m ≤ 1) :
    names.Nodup ∧ (∀ m ∈ names, df0.colCount m = 1) := by
  have hcnt : ∀ m ∈ names, List.count m ["n", "start", "duration"] +
      List.count m names + List.count m ["pipeline", "id"] ≤ 1 := by
    intro m hm
    have h1 := hle m hm
    rw [colCount_eq, hkeys, List.count_append, List.count_append] at h1
    omega
  constructor
  · rw [List.nodup_iff_count_le_one]
    intro a
    by_cases ha : a ∈ names
    · have := hcnt a ha
      omega
    · rw [List.count_eq_zero_of_not_mem ha]
      omega
  · intro m hm
    have h1 := hle m hm
    have h2 : 1 ≤ List.count m names := List.count_pos_iff.mpr hm
    rw [colCount_eq, hkeys, List.count_append, List.count_append]
    have := hcnt m hm
    omega

/-- The full characterization of a successful evaluation-table build
(with metric names none of which is another's `cummax` label): every
line parsed into a row of the fixed shape whose fitness arity equals the
number of metrics, the final column labels are the base ones followed by
one `cummax` label per metric, and each metric column is all-numeric
with its `cummax` column the exact running maximum. -/
theorem builder_core_char {lines : List (List String)} {names : List String}
    {rows : List (List Cell)} {df0 df : DataFrame}
    (hrows : buildRows 0 lines = Except.ok rows)
    (hmk : mkDataFrame rows (["n", "start", "duration"] ++ names ++ ["pipeline", "id"]) =
      Except.ok df0)
    (hadd : addCummaxColumns df0 names = Except.ok df)
    (hsafe : ∀ a ∈ names, ∀ b ∈ names, a ≠ b ++ "_cummax") :
    rows.length = lines.length ∧
    df.nrows = lines.length ∧
    names.Nodup ∧
    (∀ j < lines.length, ∃ t d pd f id_ p lt vs,
        lines.getD j [] = [t, d, pd, f, id_, p, lt] ∧
        pyFloats f = Except.ok vs ∧
        vs.length = names.length ∧
        rows.getD j [] = [Cell.int j, Cell.str t, Cell.str d] ++ vs.map Cell.num ++
          [Cell.str p, Cell.str id_]) ∧
    df.colNames = ["n", "start", "duration"] ++ names ++ ["pipeline", "id"] ++
      names.map (fun m => m ++ "_cummax") ∧
    (∀ j < names.length, ∃ qs : List Dec, qs.length = lines.length ∧
        df.col (names.getD j "") = qs.map Cell.num ∧
        df.col (names.getD j "" ++ "_cummax") = (runMax qs).map Cell.num) := by
  obtain ⟨hlen, hstruct⟩ := buildRows_struct hrows
  obtain ⟨hn0, hcols0, hbound⟩ := mkDataFrame_ok hmk
  have hkeys0 : df0.colNames =
      ["n", "start", "duration"] ++ names ++ ["pipeline", "id"] := by
    unfold DataFrame.colNames
    rw [hcols0, transposeCols_keys]
  obtain ⟨hnodup, hcount⟩ :=
    names_count_facts hkeys0 (addCummaxColumns_count_le hadd)
  have hfresh : ∀ m ∈ names, (m ++ "_cummax") ∉ df0.colNames := by
    intro m hm
    rw [hkeys0]
    exact cummax_fresh hsafe m hm
  obtain ⟨hE1, hE2, hE3, hE4⟩ := addCummaxColumns_ok hadd hnodup hsafe hfresh hcount
  -- metrics are not fixed labels
  have hnotfix : ∀ m ∈ names, m ∉ (["n", "start", "duration"] : List String) := by
    intro m hm hmem
    have h1 := hcount m hm
    rw [colCount_eq, hkeys0, List.count_append, List.count_append] at h1
    have h2 : 1 ≤ List.count m ["n", "start", "duration"] := List.count_pos_iff.mpr hmem
    have h3 : 1 ≤ List.count m names := List.count_pos_iff.mpr hm
    omega
  -- the j-th metric's base column
  have hcolj : ∀ j < names.length,
      df0.col (names.getD j "") = rows.map (fun r => r.getD (3 + j) Cell.na) := by
    intro j hj
    have hmemj : names.getD j "" ∈ names := by
      rw [List.getD_eq_getElem names "" hj]
      exact List.getElem_mem hj
    unfold DataFrame.col
    rw [hcols0, List.append_assoc,
      transposeCols_lookup_skip (names ++ ["pipeline", "id"]) rows 0
        (hnotfix _ hmemj),
      transposeCols_lookup_names ["pipeline", "id"] rows
        (0 + (["n", "start", "duration"] : List String).length) j hj hnodup]
    norm_num
  -- every row has exactly the metric arity
  have hrowlen : ∀ j < lines.length, ∀ t d pd f id_ p lt (vs : List Dec),
      lines.getD j [] = [t, d, pd, f, id_, p, lt] →
      pyFloats f = Except.ok vs →
      rows.getD j [] = [Cell.int j, Cell.str t, Cell.str d] ++ vs.map Cell.num ++
        [Cell.str p, Cell.str id_] →
      vs.length = names.length := by
    intro j hj t d pd f id_ p lt vs _ _ hrow
    have hjr : j < rows.length := by omega
    have hmem : rows.getD j [] ∈ rows := getD_mem_of_lt hjr
    have hle5 : (rows.getD j []).length ≤
        (["n", "start", "duration"] ++ names ++ ["pipeline", "id"] : List String).length :=
      hbound _ hmem
    rw [hrow] at hle5
    simp only [List.length_append, List.length_cons, List.length_nil,
      List.length_map] at hle5
    have hle : vs.length ≤ names.length := by omega
    rcases Nat.lt_or_ge vs.length names.length with hlt | hge
    · exfalso
      obtain ⟨cm, hcm, _⟩ := hE4 (names.getD vs.length "") (by
        rw [List.getD_eq_getElem names "" hlt]
        exact List.getElem_mem hlt)
      rw [hcolj vs.length hlt] at hcm
      have hcell : (rows.getD j []).getD (3 + vs.length) Cell.na = Cell.str p := by
        rw [hrow]
        rw [List.getD_append_right _ _ _ _ (by
          simp only [List.length_append, List.length_cons, List.length_nil,
            List.length_map]
          omega)]
        have hz : 3 + vs.length -
            ([Cell.int j, Cell.str t, Cell.str d] ++ vs.map Cell.num).length = 0 := by
          simp only [List.length_append, List.length_cons, List.length_nil,
            List.length_map]
          omega
        rw [hz]
        rfl
      have hin : Cell.str p ∈ rows.map (fun r => r.getD (3 + vs.length) Cell.na) := by
        rw [← hcell]
        exact List.mem_map_of_mem _ hmem
      exact cummaxGo_no_str hcm p hin
    · omega
  refine ⟨hlen, by rw [hE2, hn0]; omega, hnodup, ?_, by rw [hE1, hkeys0], ?_⟩
  · intro j hj
    obtain ⟨t, d, pd, f, id_, p, lt, vs, hline, hvs, hrow⟩ := hstruct j hj
    exact ⟨t, d, pd, f, id_, p, lt, vs, hline, hvs,
      hrowlen j hj t d pd f id_ p lt vs hline hvs hrow, hrow⟩
  · intro j hj
    refine ⟨rows.map (fun r => cellDec (r.getD (3 + j) Cell.na)), by simp [hlen], ?_, ?_⟩
    · have hmemj : names.getD j "" ∈ names := by
        rw [List.getD_eq_getElem names "" hj]
        exact List.getElem_mem hj
      have hmemk : names.getD j "" ∈ df0.colNames := by
        rw [hkeys0]
        exact List.mem_append_left _ (List.mem_append_right _ hmemj)
      rw [hE3 _ hmemk, hcolj j hj, List.map_map]
      apply List.map_congr_left
      intro r hr
      obtain ⟨i, hilt, hri⟩ := List.mem_iff_getElem.mp hr
      have hrd : rows.getD i [] = r := by
        rw [List.getD_eq_getElem rows [] hilt, hri]
      have hil : i < lines.length := by omega
      obtain ⟨t, d, pd, f, id_, p, lt, vs, hline, hvs, hrow⟩ := hstruct i hil
      have hkK := hrowlen i hil t d pd f id_ p lt vs hline hvs hrow
      rw [hrd] at hrow
      have hcell : r.getD (3 + j) Cell.na = Cell.num (vs.getD j ⟨0, 0⟩) := by
        rw [hrow]
        rw [List.getD_append _ _ _ _ (by
          simp only [List.length_append, List.length_cons, List.length_nil,
            List.length_map]
          omega)]
        rw [List.getD_append_right _ _ _ _ (by
          simp only [List.length_cons, List.length_nil]
          omega)]
        have hz : 3 + j - ([Cell.int i, Cell.str t, Cell.str d] : List Cell).length = j := by
          simp only [List.length_cons, List.length_nil]
          omega
        rw [hz]
        have hjv : j < vs.length := by omega
        rw [List.getD_eq_getElem (vs.map Cell.num) Cell.na (by simpa using hjv),
          List.getElem_map, List.getD_eq_getElem vs ⟨0, 0⟩ hjv]
      rw [hcell]
      simp only [Function.comp_apply]
      rw [hcell]
      rfl
    · have hmemj : names.getD j "" ∈ names := by
        rw [List.getD_eq_getElem names "" hj]
        exact List.getElem_mem hj
      obtain ⟨cm, hcm, hcmcol⟩ := hE4 _ hmemj
      rw [hcolj j hj] at hcm
      have hcoleq : rows.map (fun r => r.getD (3 + j) Cell.na) =
          (rows.map (fun r => cellDec (r.getD (3 + j) Cell.na))).map Cell.num := by
        rw [List.map_map]
        apply List.map_congr_left
        intro r hr
        obtain ⟨i, hilt, hri⟩ := List.mem_iff_getElem.mp hr
        have hrd : rows.getD i [] = r := by
          rw [List.getD_eq_getElem rows [] hilt, hri]
        have hil : i < lines.length := by omega
        obtain ⟨t, d, pd, f, id_, p, lt, vs, hline, hvs, hrow⟩ := hstruct i hil
        have hkK := hrowlen i hil t d pd f id_ p lt vs hline hvs hrow
        rw [hrd] at hrow
        have hcell : r.getD (3 + j) Cell.na = Cell.num (vs.getD j ⟨0, 0⟩) := by
          rw [hrow]
          rw [List.getD_append _ _ _ _ (by
            simp only [List.length_append, List.length_cons, List.length_nil,
              List.length_map]
            omega)]
          rw [List.getD_append_right _ _ _ _ (by
            simp only [List.length_cons, List.length_nil]
            omega)]
          have hz : 3 + j - ([Cell.int i, Cell.str t, Cell.str d] : List Cell).length = j := by
            simp only [List.length_cons, List.length_nil]
            omega
          rw [hz]
          have hjv : j < vs.length := by omega
          rw [List.getD_eq_getElem (vs.map Cell.num) Cell.na (by simpa using hjv),
            List.getElem_map, List.getD_eq_getElem vs ⟨0, 0⟩ hjv]
        rw [hcell]
        simp only [Function.comp_apply]
        rw [hcell]
        rfl
      rw [hcoleq] at hcm
      rw [cummaxCells_num] at hcm
      have hcmeq : cm = (runMax (rows.map (fun r => cellDec (r.getD (3 + j) Cell.na)))).map
          Cell.num := by
        cases hcm
        rfl
      rw [← hcmeq]
      exact hcmcol

/-! ## Lemmas about splitting and the configuration resolver -/

theorem splitChars_two {sep : Char} {c1 c2 : List Char} (h1 : sep ∉ c1) (h2 : sep ∉ c2) :
    splitChars sep (c1 ++ sep :: c2) = [c1, c2] := by
  rw [splitChars_append_sep c2 h1, splitChars_of_not_mem h2]

theorem splitChars_three {sep : Char} {c1 c2 c3 : List Char} (h1 : sep ∉ c1)
    (h2 : sep ∉ c2) (h3 : sep ∉ c3) :
    splitChars sep (c1 ++ sep :: (c2 ++ sep :: c3)) = [c1, c2, c3] := by
  rw [splitChars_append_sep _ h1, splitChars_append_sep c3 h2, splitChars_of_not_mem h3]

@[simp] theorem mk_data_eta (s : String) : (⟨s.data⟩ : String) = s := rfl

/-! ## Lemmas about the event grouping -/

theorem events_by_type_ok_elim {log_lines : List String}
    {d : List (String × List (List String))} (h : events_by_type log_lines = Except.ok d) :
    d = groupByToken TOKENS_values (ple_lines log_lines) := by
  unfold events_by_type at h
  split at h
  · cases h
  · cases h
    rfl

theorem groupByToken_keys (tokens : List String) (ples : List (List String)) :
    (groupByToken tokens ples).map Prod.fst = tokens := by
  unfold groupByToken
  rw [List.map_map]
  apply List.map_id''
  intro t
  rfl

theorem groupByToken_lookup_mem {tokens : List String} {t : String} (ples : List (List String))
    (ht : t ∈ tokens) :
    (groupByToken tokens ples).lookup t = some (ples.filterMap (fun pl =>
      match pl with
      | line_token :: event => if line_token = t then some event else none
      | [] => none)) := by
  induction tokens with
  | nil => simp at ht
  | cons t0 rest ih =>
    unfold groupByToken
    simp only [List.map_cons]
    by_cases he : t = t0
    · subst he
      rw [lookup_cons_pair_self]
    · rw [lookup_cons_pair_ne he]
      rcases List.mem_cons.mp ht with h | h
      · exact absurd h he
      · exact ih h

theorem groupByToken_lookup_not_mem {tokens : List String} {t : String}
    (ples : List (List String)) (ht : t ∉ tokens) :
    (groupByToken tokens ples).lookup t = none := by
  apply lookup_eq_none_of_not_mem_keys
  rw [groupByToken_keys]
  exact ht

theorem dictGet_ok_iff {d : List (String × List (List String))} {k : String}
    {v : List (List String)} : dictGet d k = Except.ok v ↔ d.lookup k = some v := by
  unfold dictGet
  constructor
  · intro h
    cases hl : d.lookup k with
    | none => rw [hl] at h; cases h
    | some w =>
      rw [hl] at h
      cases h
      rfl
  · intro h
    rw [h]

/-! ## Lemmas about name inference -/

theorem resolveNames_some (rows : List (List Cell)) (ns : List String) :
    resolveNames rows (some ns) = Except.ok ns := rfl

theorem resolveNames_none_ok_elim {rows : List (List Cell)} {names : List String}
    (h : resolveNames rows none = Except.ok names) :
    ∃ r, rows.getLast? = some r ∧ names = syntheticNames (r.length - 5) := by
  unfold resolveNames at h
  cases hl : rows.getLast? with
  | none => rw [hl] at h; cases h
  | some r =>
    rw [hl] at h
    cases h
    exact ⟨r, rfl, rfl⟩

/-! ## Lemmas about the Report constructor -/

theorem init_ok_elim {lf : Option String} {ll : Option (List String)} {nm : Option String}
    {rd : String → List String} {r : GamaReport}
    (h : GamaReport.init lf ll nm rd = Except.ok r) :
    ∃ ms evs evalLines df ph,
      _find_metric_configuration (initLines lf ll rd) = Except.ok ms ∧
      events_by_type (initLines lf ll rd) = Except.ok evs ∧
      dictGet evs EVALUATION_RESULT = Except.ok evalLines ∧
      _evaluations_to_dataframe evalLines (some ms) = Except.ok df ∧
      _find_phase_information evs = Except.ok ph ∧
      r.metrics = ms ∧ r.evaluations = df ∧ r.phases = ph := by
  unfold GamaReport.init at h
  split at h
  · cases h
  · split at h
    · cases h
    · obtain ⟨ms, h1, h2⟩ := bind_ok_elim h
      obtain ⟨evs, h3, h4⟩ := bind_ok_elim h2
      obtain ⟨el, h5, h6⟩ := bind_ok_elim h4
      obtain ⟨df, h7, h8⟩ := bind_ok_elim h6
      obtain ⟨ph, h9, h10⟩ := bind_ok_elim h8
      cases h10
      exact ⟨ms, evs, el, df, ph, h1, h3, h5, h7, h9, rfl, rfl, rfl⟩

theorem init_eval_phase_error {lines : List String} {nm : Option String}
    {rd : String → List String} {ms : List String}
    {evs : List (String × List (List String))} {el : List (List String)}
    {df : DataFrame} {e : PyErr}
    (h1 : _find_metric_configuration lines = Except.ok ms)
    (h2 : events_by_type lines = Except.ok evs)
    (h3 : dictGet evs EVALUATION_RESULT = Except.ok el)
    (h4 : _evaluations_to_dataframe el (some ms) = Except.ok df)
    (h5 : _find_phase_information evs = Except.error e) :
    GamaReport.init none (some lines) nm rd = Except.error e := by
  unfold GamaReport.init
  simp only [Option.isNone_none, Option.isNone_some, Option.isSome_none, Option.isSome_some,
    Bool.true_and, Bool.and_true, Bool.false_and, Bool.and_false, Bool.true_and,
    if_false, Bool.false_eq_true, ite_false]
  have hl : initLines none (some lines) rd = lines := rfl
  rw [hl, h1, ok_bind, h2, ok_bind, h3, ok_bind, h4, ok_bind, h5, error_bind]

/-! ## Lemmas about the phase extractor -/

theorem headOrIndexError_ok_elim {l : List (List String)} {e : List String}
    (h : headOrIndexError l = Except.ok e) : l.head? = some e := by
  cases l with
  | nil => cases h
  | cons a tl =>
    cases h
    rfl

theorem unpack3_ok_elim {f : List String} {x : String × String × String}
    (h : unpack3 f = Except.ok x) : f = [x.1, x.2.1, x.2.2] := by
  match f with
  | [] | [_] | [_, _] => exact Except.noConfusion h
  | _ :: _ :: _ :: _ :: _ => exact Except.noConfusion h
  | [a, b, c] =>
    cases h
    rfl

theorem findPhaseEntry_eval {evs : List (String × List (List String))} {p : String}
    {starts ends : List (List String)} {s1 s2 s3 e1 e2 e3 : String}
    {stail etail : List (List String)} {st et : ℤ}
    (h1 : dictGet evs PHASE_START = Except.ok starts)
    (h2 : dictGet evs PHASE_END = Except.ok ends)
    (h3 : starts.filter (fun e => e.contains p) = [s1, s2, s3] :: stail)
    (h4 : ends.filter (fun e => e.contains p) = [e1, e2, e3] :: etail)
    (h5 : strptime e3 = Except.ok et)
    (h6 : strptime s3 = Except.ok st) :
    findPhaseEntry evs p = Except.ok (p, e2, et - st) := by
  unfold findPhaseEntry
  rw [h1, ok_bind, h2, ok_bind, h3, h4]
  simp only [headOrIndexError, ok_bind, unpack3]
  rw [h5, ok_bind, h6, ok_bind]

theorem findPhaseEntry_missing {evs : List (String × List (List String))} {p : String}
    {starts ends : List (List String)}
    (h1 : dictGet evs PHASE_START = Except.ok starts)
    (h2 : dictGet evs PHASE_END = Except.ok ends)
    (hm : starts.filter (fun e => e.contains p) = [] ∨
      ends.filter (fun e => e.contains p) = []) :
    findPhaseEntry evs p = Except.error (PyErr.indexError "list index out of range") := by
  unfold findPhaseEntry
  rw [h1, ok_bind, h2, ok_bind]
  rcases hm with hm | hm
  · rw [hm]
    simp only [headOrIndexError, error_bind]
  · cases hs : starts.filter (fun e => e.contains p) with
    | nil =>
      simp only [headOrIndexError, error_bind]
    | cons e0 etl =>
      rw [hm]
      simp only [headOrIndexError, ok_bind, error_bind]

theorem findPhaseEntry_ok_elim {evs : List (String × List (List String))} {p : String}
    {x : String × String × ℤ} (h : findPhaseEntry evs p = Except.ok x) :
    ∃ starts ends sphase ephase,
      dictGet evs PHASE_START = Except.ok starts ∧
      dictGet evs PHASE_END = Except.ok ends ∧
      (starts.filter (fun e => e.contains p)).head? = some sphase ∧
      (ends.filter (fun e => e.contains p)).head? = some ephase ∧
      ∃ s1 s2 s3 e1 e2 e3 st et,
        sphase = [s1, s2, s3] ∧ ephase = [e1, e2, e3] ∧
        strptime e3 = Except.ok et ∧ strptime s3 = Except.ok st ∧
        x = (p, e2, et - st) := by
  unfold findPhaseEntry at h
  obtain ⟨starts, h1, h⟩ := bind_ok_elim h
  obtain ⟨ends, h2, h⟩ := bind_ok_elim h
  obtain ⟨sphase, hsh, h⟩ := bind_ok_elim h
  obtain ⟨ephase, heh, h⟩ := bind_ok_elim h
  obtain ⟨sp, hsp, h⟩ := bind_ok_elim h
  obtain ⟨ep, hep, h⟩ := bind_ok_elim h
  obtain ⟨et, het, h⟩ := bind_ok_elim h
  obtain ⟨st, hst, h⟩ := bind_ok_elim h
  cases h
  exact ⟨starts, ends, sphase, ephase, h1, h2, headOrIndexError_ok_elim hsh,
    headOrIndexError_ok_elim heh, sp.1, sp.2.1, sp.2.2, ep.1, ep.2.1, ep.2.2, st, et,
    unpack3_ok_elim hsp, unpack3_ok_elim hep, het, hst, rfl⟩

theorem phase_info_ok_elim {evs : List (String × List (List String))}
    {ph : List (String × String × ℤ)} (h : _find_phase_information evs = Except.ok ph) :
    ∃ a b c, findPhaseEntry evs "preprocessing" = Except.ok a ∧
      findPhaseEntry evs "search" = Except.ok b ∧
      findPhaseEntry evs "postprocess" = Except.ok c ∧ ph = [a, b, c] := by
  unfold _find_phase_information at h
  obtain ⟨a, h1, h⟩ := bind_ok_elim h
  obtain ⟨b, h2, h⟩ := bind_ok_elim h
  obtain ⟨c, h3, h⟩ := bind_ok_elim h
  cases h
  exact ⟨a, b, c, h1, h2, h3, rfl⟩

theorem phase_info_error_of_entry {evs : List (String × List (List String))} {p : String}
    (hp : p ∈ (["preprocessing", "search", "postprocess"] : List String))
    (hperr : findPhaseEntry evs p =
      Except.error (PyErr.indexError "list index out of range"))
    (hall : ∀ q ∈ (["preprocessing", "search", "postprocess"] : List String),
      (∃ x, findPhaseEntry evs q = Except.ok x) ∨
        findPhaseEntry evs q =
          Except.error (PyErr.indexError "list index out of range")) :
    _find_phase_information evs =
      Except.error (PyErr.indexError "list index out of range") := by
  unfold _find_phase_information
  rcases hall "preprocessing" (by simp) with ⟨x1, hx1⟩ | hx1
  · rw [hx1, ok_bind]
    rcases hall "search" (by simp) with ⟨x2, hx2⟩ | hx2
    · rw [hx2, ok_bind]
      rcases hall "postprocess" (by simp) with ⟨x3, hx3⟩ | hx3
      · exfalso
        simp only [List.mem_cons, List.not_mem_nil, or_false] at hp
        rcases hp with rfl | rfl | rfl
        · rw [hperr] at hx1
          cases hx1
        · rw [hperr] at hx2
          cases hx2
        · rw [hperr] at hx3
          cases hx3
      · rw [hx3, error_bind]
    · rw [hx2, error_bind]
  · rw [hx1, error_bind]

/-! ## Further builder lemmas -/

theorem addCummaxColumns_nrows {names : List String} :
    ∀ {df df' : DataFrame}, addCummaxColumns df names = Except.ok df' →
      df'.nrows = df.nrows := by
  induction names with
  | nil =>
    intro df df' h
    simp only [addCummaxColumns] at h
    cases h
    rfl
  | cons m rest ih =>
    intro df df' h
    simp only [addCummaxColumns] at h
    obtain ⟨d, h1, h2⟩ := bind_ok_elim h
    obtain ⟨_, cm, _, hd⟩ := addCummaxColumn_ok_elim h1
    rw [ih h2, hd, setCol_nrows]

theorem resolveNames_some_elim {rows : List (List Cell)} {ns names : List String}
    (h : resolveNames rows (some ns) = Except.ok names) : names = ns := by
  cases h
  rfl

/-! ## Claim theorems -/

/-- C9: `GamaReport` construction raises the mutual-exclusion
`ValueError` (the spec's ArgumentError) when both a file path and an
in-memory line sequence are provided, and the missing-argument
`ValueError` when neither is; a report is only produced when exactly one
of the two is given. -/
theorem c9_argument_check (lf : Option String) (ll : Option (List String))
    (nm : Option String) (rd : String → List String) :
    (lf = none ∧ ll = none →
      GamaReport.init lf ll nm rd = Except.error (PyErr.valueError
        "Either 'logfile' or 'loglines' must be provided. Both are None.")) ∧
    (lf ≠ none ∧ ll ≠ none →
      GamaReport.init lf ll nm rd = Except.error (PyErr.valueError
        "Exactly one of 'logfile' and 'loglines' may be provided at once.")) ∧
    (∀ r, GamaReport.init lf ll nm rd = Except.ok r → (lf = none ↔ ll ≠ none)) := by
  refine ⟨?_, ?_, ?_⟩
  · rintro ⟨rfl, rfl⟩
    rfl
  · rintro ⟨h1, h2⟩
    match lf, ll with
    | some f, some ls => rfl
    | none, _ => exact absurd rfl h1
    | some f, none => exact absurd rfl h2
  · intro r hr
    match lf, ll with
    | none, none => exact Except.noConfusion hr
    | some f, some ls => exact Except.noConfusion hr
    | some f, none => simp
    | none, some ls => simp

/-- C10: any in-memory input of fewer than two lines makes the
constructor fail with the `IndexError` raised by the metric-configuration
resolver's unconditional read of line index 1, which runs before the
event grouping and table building; no report is produced. -/
theorem c10_short_input (lines : List String) (nm : Option String)
    (rd : String → List String) (h : lines.length < 2) :
    GamaReport.init none (some lines) nm rd =
      Except.error (PyErr.indexError "list index out of range") := by
  have hmc : _find_metric_configuration lines =
      Except.error (PyErr.indexError "list index out of range") := by
    unfold _find_metric_configuration pyIndex
    rw [List.get?_eq_none.mpr (by omega)]
    rfl
  unfold GamaReport.init
  simp only [Option.isNone_none, Option.isNone_some, Option.isSome_none, Option.isSome_some,
    Bool.true_and, Bool.and_true, Bool.false_and, Bool.and_false, Bool.false_eq_true,
    if_false, ite_false]
  have hl : initLines none (some lines) rd = lines := rfl
  rw [hl, hmc, error_bind]

/-- C8: when the grouped events lack a matching start or end event for
one of the three phases (and every other stage of construction is
well-formed, the remaining phases either resolving or missing in the
same way), construction fails with the `IndexError` raised by the `[0]`
subscript on the empty phase selection — the spec's PhaseNotFoundError —
and no report is produced. -/
theorem c8_phase_not_found (lines : List String) (nm : Option String)
    (rd : String → List String) (ms : List String)
    (evs : List (String × List (List String))) (el : List (List String))
    (df : DataFrame) (starts ends : List (List String)) (p : String)
    (h1 : _find_metric_configuration lines = Except.ok ms)
    (h2 : events_by_type lines = Except.ok evs)
    (h3 : dictGet evs EVALUATION_RESULT = Except.ok el)
    (h4 : _evaluations_to_dataframe el (some ms) = Except.ok df)
    (h5 : dictGet evs PHASE_START = Except.ok starts)
    (h6 : dictGet evs PHASE_END = Except.ok ends)
    (hp : p ∈ (["preprocessing", "search", "postprocess"] : List String))
    (hmiss : starts.filter (fun e => e.contains p) = [] ∨
      ends.filter (fun e => e.contains p) = [])
    (hall : ∀ q ∈ (["preprocessing", "search", "postprocess"] : List String),
      (∃ x, findPhaseEntry evs q = Except.ok x) ∨
        findPhaseEntry evs q =
          Except.error (PyErr.indexError "list index out of range")) :
    GamaReport.init none (some lines) nm rd =
      Except.error (PyErr.indexError "list index out of range") := by
  have hperr := findPhaseEntry_missing h5 h6 hmiss
  have hph := phase_info_error_of_entry hp hperr hall
  exact init_eval_phase_error h1 h2 h3 h4 hph

/-- C7 (amended): every successfully constructed report has exactly 3
phase records, in the fixed order preprocessing, search, postprocess
regardless of the order the events appear in the log; each record's
duration is the end timestamp minus the start timestamp in seconds,
which the code does not constrain to be nonnegative. -/
theorem c7_phases_amended (lf : Option String) (ll : Option (List String))
    (nm : Option String) (rd : String → List String) (r : GamaReport)
    (h : GamaReport.init lf ll nm rd = Except.ok r) :
    r.phases.length = 3 ∧
      r.phases.map (fun ph => ph.1) = ["preprocessing", "search", "postprocess"] := by
  obtain ⟨ms, evs, el, df, ph, _, _, _, _, h9, _, _, hph⟩ := init_ok_elim h
  obtain ⟨a, b, c, ha, hb, hc, habc⟩ := phase_info_ok_elim h9
  obtain ⟨_, _, _, _, _, _, _, _, _, _, _, _, _, _, _, _, _, _, _, _, ha'⟩ :=
    findPhaseEntry_ok_elim ha
  obtain ⟨_, _, _, _, _, _, _, _, _, _, _, _, _, _, _, _, _, _, _, _, hb'⟩ :=
    findPhaseEntry_ok_elim hb
  obtain ⟨_, _, _, _, _, _, _, _, _, _, _, _, _, _, _, _, _, _, _, _, hc'⟩ :=
    findPhaseEntry_ok_elim hc
  rw [hph, habc, ha', hb', hc']
  exact ⟨rfl, rfl⟩

/-- C2: for every constructed report, the evaluation table has exactly
one row per evaluation-result event in the grouped log, and the row
built from the `i`-th evaluation event is
`[n = i, start = time, duration, v1..vk, pipeline_str, id]`, where the
`v`s are the floats obtained by stripping the outer parentheses of the
event's fitness field and splitting on commas. -/
theorem c2_evaluation_rows (lf : Option String) (ll : Option (List String))
    (nm : Option String) (rd : String → List String) (r : GamaReport)
    (h : GamaReport.init lf ll nm rd = Except.ok r) :
    ∃ evs evalLines rows,
      events_by_type (initLines lf ll rd) = Except.ok evs ∧
      dictGet evs EVALUATION_RESULT = Except.ok evalLines ∧
      r.evaluations.nrows = evalLines.length ∧
      buildRows 0 evalLines = Except.ok rows ∧
      rows.length = evalLines.length ∧
      ∀ i < evalLines.length, ∃ t d pd f id_ p lt vs,
        evalLines.getD i [] = [t, d, pd, f, id_, p, lt] ∧
        pyFloats f = Except.ok vs ∧
        rows.getD i [] = [Cell.int i, Cell.str t, Cell.str d] ++ vs.map Cell.num ++
          [Cell.str p, Cell.str id_] := by
  obtain ⟨ms, evs, el, df, ph, h1, h2, h3, h4, h5, hms, hdf, hph⟩ := init_ok_elim h
  obtain ⟨rows, names, df0, hbr, hres, hmk, hadd⟩ := builder_ok_elim h4
  obtain ⟨hlen, hstruct⟩ := buildRows_struct hbr
  obtain ⟨hn0, _, _⟩ := mkDataFrame_ok hmk
  refine ⟨evs, el, rows, h2, h3, ?_, hbr, hlen, hstruct⟩
  rw [hdf, addCummaxColumns_nrows hadd, hn0, hlen]

/-- C5 (amended): the event grouping is built over the fixed expected
token vocabulary only — framed events with an unknown event-type token
are discarded, not kept under their own key — while every expected token
absent from the log maps to an empty sequence rather than raising an
error. -/
theorem c5_grouping_amended (log_lines : List String)
    (d : List (String × List (List String)))
    (h : events_by_type log_lines = Except.ok d) :
    d.map Prod.fst = TOKENS_values ∧
    (∀ t, t ∉ TOKENS_values → d.lookup t = none) ∧
    (∀ t ∈ TOKENS_values, (∀ pl ∈ ple_lines log_lines, pl.head? ≠ some t) →
      d.lookup t = some []) := by
  have hd := events_by_type_ok_elim h
  subst hd
  refine ⟨groupByToken_keys TOKENS_values (ple_lines log_lines), ?_, ?_⟩
  · intro t ht
    exact groupByToken_lookup_not_mem (ple_lines log_lines) ht
  · intro t ht hno
    rw [groupByToken_lookup_mem (ple_lines log_lines) ht]
    congr 1
    apply List.filterMap_eq_nil_iff.mpr
    intro pl hpl
    cases pl with
    | nil => rfl
    | cons lt ev =>
      have hne : lt ≠ t := by
        intro he
        exact hno (lt :: ev) hpl (by rw [he]; rfl)
      simp [hne]

/-- C6 (amended): the phase events the extractor accepts have the
three-field shape `(phase, algorithm, timestamp)` — for the chosen start
event `[s1, s2, s3]` and end event `[e1, e2, e3]` it reads the start and
end timestamps from the third fields and the algorithm from the second
field of the end event, producing `(phase, e2, et - st)`. -/
theorem c6_phase_event_shape_amended (evs : List (String × List (List String)))
    (p : String) (starts ends : List (List String)) (s1 s2 s3 e1 e2 e3 : String)
    (stail etail : List (List String)) (st et : ℤ)
    (h1 : dictGet evs PHASE_START = Except.ok starts)
    (h2 : dictGet evs PHASE_END = Except.ok ends)
    (h3 : starts.filter (fun e => e.contains p) = [s1, s2, s3] :: stail)
    (h4 : ends.filter (fun e => e.contains p) = [e1, e2, e3] :: etail)
    (h5 : strptime e3 = Except.ok et)
    (h6 : strptime s3 = Except.ok st) :
    findPhaseEntry evs p = Except.ok (p, e2, et - st) :=
  findPhaseEntry_eval h1 h2 h3 h4 h5 h6

/-- C3: when the evaluation-table builder is called without a metric
list, a successful build synthesizes exactly as many names
`metric_0 .. metric_{k-1}` as the arity `k` of the first row's fitness
tuple (all rows are then forced to share that arity); and for every
input in which two rows' fitness tuples have different arities, the
build fails rather than producing a table. -/
theorem c3_inferred_metric_names (lines : List (List String)) :
    (∀ df, _evaluations_to_dataframe lines none = Except.ok df →
      ∃ k, (∃ t d pd f id_ p lt vs, lines.getD 0 [] = [t, d, pd, f, id_, p, lt] ∧
          pyFloats f = Except.ok vs ∧ vs.length = k) ∧
        df.colNames = ["n", "start", "duration"] ++ syntheticNames k ++
          ["pipeline", "id"] ++ (syntheticNames k).map (fun m => m ++ "_cummax")) ∧
    ((∃ i1, i1 < lines.length ∧ ∃ i2, i2 < lines.length ∧
        fitnessArity (lines.getD i1 []) ≠ fitnessArity (lines.getD i2 [])) →
      ∃ e, _evaluations_to_dataframe lines none = Except.error e) := by
  have harity : ∀ (df : DataFrame), _evaluations_to_dataframe lines none = Except.ok df →
      ∃ k, (∀ j < lines.length, fitnessArity (lines.getD j []) = k) ∧
        0 < lines.length ∧
        (∃ t d pd f id_ p lt vs, lines.getD 0 [] = [t, d, pd, f, id_, p, lt] ∧
          pyFloats f = Except.ok vs ∧ vs.length = k) ∧
        df.colNames = ["n", "start", "duration"] ++ syntheticNames k ++
          ["pipeline", "id"] ++ (syntheticNames k).map (fun m => m ++ "_cummax") := by
    intro df hdf
    obtain ⟨rows, names, df0, hbr, hres, hmk, hadd⟩ := builder_ok_elim hdf
    obtain ⟨rlast, hlast, hnames⟩ := resolveNames_none_ok_elim hres
    have hsafe : ∀ a ∈ names, ∀ b ∈ names, a ≠ b ++ "_cummax" := by
      rw [hnames]
      exact syntheticNames_safe (rlast.length - 5)
    obtain ⟨hlen, hnr, hnodup, hstruct, hcols, hqs⟩ :=
      builder_core_char hbr hmk hadd hsafe
    have hklen : names.length = rlast.length - 5 := by
      rw [hnames]
      unfold syntheticNames
      simp
    have hpos : 0 < lines.length := by
      cases hr0 : rows with
      | nil => rw [hr0] at hlast; cases hlast
      | cons a tl =>
        have : 0 < rows.length := by rw [hr0]; simp
        omega
    refine ⟨names.length, ?_, hpos, ?_, ?_⟩
    · intro j hj
      obtain ⟨t, d, pd, f, id_, p, lt, vs, hline, hvs, hvl, _⟩ := hstruct j hj
      unfold fitnessArity
      rw [hline]
      have hf3 : ([t, d, pd, f, id_, p, lt].getD 3 "") = f := rfl
      rw [hf3]
      have hlenvs : vs.length = (splitChars ',' (strip1 f).data).length := by
        unfold pyFloats at hvs
        have := parseFloatList_length hvs
        simpa using this
      omega
    · obtain ⟨t, d, pd, f, id_, p, lt, vs, hline, hvs, hvl, _⟩ := hstruct 0 hpos
      exact ⟨t, d, pd, f, id_, p, lt, vs, hline, hvs, hvl⟩
    · rw [hcols, hnames]
      have hsl : (syntheticNames (rlast.length - 5)).length = rlast.length - 5 := by
        unfold syntheticNames
        simp
      rw [hsl]
  constructor
  · intro df hdf
    obtain ⟨k, _, _, hfirst, hcols⟩ := harity df hdf
    exact ⟨k, hfirst, hcols⟩
  · rintro ⟨i1, hi1, i2, hi2, hne⟩
    cases hdf : _evaluations_to_dataframe lines none with
    | error e => exact ⟨e, rfl⟩
    | ok df =>
      exfalso
      obtain ⟨k, hconst, _, _, _⟩ := harity df hdf
      rw [hconst i1 hi1, hconst i2 hi2] at hne
      exact hne rfl

/-- C1 (amended): for every constructed report whose metric names do not
collide with derived column labels (no metric is another metric's
`<metric>_cummax` label — the counterexample shows the claim fails
otherwise), the evaluation table contains, for every metric in the
metric list, a derived all-numeric column `<metric>_cummax` that is the
exact running maximum of that metric's column: entry `i` dominates and
is attained by the metric's values over rows `0..i`, and the sequence is
monotonically non-decreasing. -/
theorem c1_cummax_correct_amended (lf : Option String) (ll : Option (List String))
    (nm : Option String) (rd : String → List String) (r : GamaReport)
    (h : GamaReport.init lf ll nm rd = Except.ok r)
    (hsafe : ∀ a ∈ r.metrics, ∀ b ∈ r.metrics, a ≠ b ++ "_cummax")
    (metric : String) (hmem : metric ∈ r.metrics) :
    (metric ++ "_cummax") ∈ r.evaluations.colNames ∧
    ∃ qs : List Dec, qs.length = r.evaluations.nrows ∧
      r.evaluations.col metric = qs.map Cell.num ∧
      r.evaluations.col (metric ++ "_cummax") = (runMax qs).map Cell.num ∧
      (∀ i < qs.length,
        (∀ jj ≤ i, Dec.le (qs.getD jj ⟨0, 0⟩) ((runMax qs).getD i ⟨0, 0⟩)) ∧
        ∃ jj ≤ i, (runMax qs).getD i ⟨0, 0⟩ = qs.getD jj ⟨0, 0⟩) ∧
      (∀ i i', i ≤ i' → i' < qs.length →
        Dec.le ((runMax qs).getD i ⟨0, 0⟩) ((runMax qs).getD i' ⟨0, 0⟩)) := by
  obtain ⟨ms, evs, el, df, ph, h1, h2, h3, h4, h5, hms, hdf, hph⟩ := init_ok_elim h
  obtain ⟨rows, names, df0, hbr, hres, hmk, hadd⟩ := builder_ok_elim h4
  have hnm : names = ms := resolveNames_some_elim hres
  subst hnm
  rw [hms] at hmem hsafe
  obtain ⟨hlen, hnr, hnodup, hstruct, hcols, hqs⟩ :=
    builder_core_char hbr hmk hadd hsafe
  obtain ⟨j, hj, hgj⟩ := List.mem_iff_getElem.mp hmem
  have hgetD : names.getD j "" = metric := by
    rw [List.getD_eq_getElem names "" hj, hgj]
  obtain ⟨qs, hql, hcol, hccol⟩ := hqs j hj
  rw [hgetD] at hcol hccol
  constructor
  · rw [hdf, hcols]
    exact List.mem_append_right _ (List.mem_map_of_mem _ hmem)
  · refine ⟨qs, ?_, ?_, ?_, ?_, ?_⟩
    · rw [hdf, hnr, hql]
    · rw [hdf]
      exact hcol
    · rw [hdf]
      exact hccol
    · intro i hi
      exact ⟨fun jj hjj => runMax_bound qs i hi jj hjj, runMax_attained qs i hi⟩
    · intro i i' hii hi'
      exact runMax_mono qs i i' hii hi'

theorem not_mem_append_ch {a : Char} {l1 l2 : List Char} (h1 : a ∉ l1) (h2 : a ∉ l2) :
    a ∉ l1 ++ l2 := by
  simp [List.mem_append, h1, h2]

theorem not_mem_cons_ch {a b : Char} {l : List Char} (h1 : a ≠ b) (h2 : a ∉ l) :
    a ∉ b :: l := by
  simp [List.mem_cons, h1, h2]

/-- C4: for a configuration line of the constructor-call form whose
first argument is `scoring=<metric>` and second is
`regularize_length=<value>` (neither token containing a parenthesis,
comma or equals sign), the resolver returns `[metric]` exactly when the
regularize string value is the empty string, and `[metric, "length"]`
for every non-empty value — including the string `"False"`, since
Python's `bool` on any non-empty string is true. -/
theorem c4_metric_configuration (l0 : String) (rest : List String)
    (metric value : String)
    (hm : ∀ c ∈ metric.data, c ≠ '(' ∧ c ≠ ',' ∧ c ≠ '=')
    (hv : ∀ c ∈ value.data, c ≠ '(' ∧ c ≠ ',' ∧ c ≠ '=') :
    _find_metric_configuration
      (l0 :: ("GamaClassifier(scoring=" ++ metric ++ ",regularize_length=" ++ value ++
        ",n_jobs=1)") :: rest) =
      Except.ok (if value = "" then [metric] else [metric, "length"]) := by
  have hmp : '(' ∉ metric.data := fun hc => (hm _ hc).1 rfl
  have hmc : ',' ∉ metric.data := fun hc => (hm _ hc).2.1 rfl
  have hme : '=' ∉ metric.data := fun hc => (hm _ hc).2.2 rfl
  have hvp : '(' ∉ value.data := fun hc => (hv _ hc).1 rfl
  have hvc : ',' ∉ value.data := fun hc => (hv _ hc).2.1 rfl
  have hve : '=' ∉ value.data := fun hc => (hv _ hc).2.2 rfl
  have hd : ("GamaClassifier(scoring=" ++ metric ++ ",regularize_length=" ++ value ++
      ",n_jobs=1)").data =
      "GamaClassifier".data ++ '(' :: (("scoring".data ++ '=' :: metric.data) ++
        ',' :: (("regularize_length".data ++ '=' :: value.data) ++
          ',' :: "n_jobs=1)".data)) := by
    simp only [str_data_append]
    simp [List.append_assoc, List.cons_append]
  have hsplit1 : pySplit '('
      ("GamaClassifier(scoring=" ++ metric ++ ",regularize_length=" ++ value ++
        ",n_jobs=1)") =
      ["GamaClassifier", String.mk (("scoring".data ++ '=' :: metric.data) ++
        ',' :: (("regularize_length".data ++ '=' :: value.data) ++
          ',' :: "n_jobs=1)".data))] := by
    unfold pySplit
    rw [hd, splitChars_append_sep _ (by decide), splitChars_of_not_mem ?hB]
    case hB =>
      refine not_mem_append_ch (not_mem_append_ch (by decide)
        (not_mem_cons_ch (by decide) hmp)) ?_
      refine not_mem_cons_ch (by decide) ?_
      refine not_mem_append_ch (not_mem_append_ch (by decide)
        (not_mem_cons_ch (by decide) hvp)) ?_
      exact not_mem_cons_ch (by decide) (by decide)
    rfl
  have hsplit2 : pySplit ',' (String.mk (("scoring".data ++ '=' :: metric.data) ++
      ',' :: (("regularize_length".data ++ '=' :: value.data) ++
        ',' :: "n_jobs=1)".data))) =
      [String.mk ("scoring".data ++ '=' :: metric.data),
       String.mk ("regularize_length".data ++ '=' :: value.data),
       String.mk "n_jobs=1)".data] := by
    unfold pySplit
    rw [show (String.mk (("scoring".data ++ '=' :: metric.data) ++
      ',' :: (("regularize_length".data ++ '=' :: value.data) ++
        ',' :: "n_jobs=1)".data))).data = ("scoring".data ++ '=' :: metric.data) ++
      ',' :: (("regularize_length".data ++ '=' :: value.data) ++
        ',' :: "n_jobs=1)".data) from rfl]
    rw [splitChars_three
      (not_mem_append_ch (by decide) (not_mem_cons_ch (by decide) hmc))
      (not_mem_append_ch (by decide) (not_mem_cons_ch (by decide) hvc))
      (by decide)]
    rfl
  have hsplit3 : pySplit '=' (String.mk ("scoring".data ++ '=' :: metric.data)) =
      ["scoring", metric] := by
    unfold pySplit
    rw [show (String.mk ("scoring".data ++ '=' :: metric.data)).data =
      "scoring".data ++ '=' :: metric.data from rfl]
    rw [splitChars_two (by decide) hme]
    simp [mk_data_eta]
  have hsplit4 : pySplit '=' (String.mk ("regularize_length".data ++ '=' :: value.data)) =
      ["regularize_length", value] := by
    unfold pySplit
    rw [show (String.mk ("regularize_length".data ++ '=' :: value.data)).data =
      "regularize_length".data ++ '=' :: value.data from rfl]
    rw [splitChars_two (by decide) hve]
    simp [mk_data_eta]
  unfold _find_metric_configuration
  rw [show pyIndex (l0 :: ("GamaClassifier(scoring=" ++ metric ++
    ",regularize_length=" ++ value ++ ",n_jobs=1)") :: rest) 1 =
    Except.ok ("GamaClassifier(scoring=" ++ metric ++ ",regularize_length=" ++ value ++
      ",n_jobs=1)") from rfl, ok_bind, hsplit1]
  simp only [unpack2, ok_bind]
  rw [hsplit2]
  simp only [unpack2Star, ok_bind]
  rw [hsplit3]
  simp only [unpack2, ok_bind]
  rw [hsplit4]
  simp only [unpack2, ok_bind]
  by_cases hval : value = ""
  · simp [hval]
  · simp [hval]

/-! ## Witnesses and counterexamples -/

/-- C1 counterexample: with scoring metric literally named
`length_cummax`, the derived-column assignment for `length` overwrites
the `length_cummax` metric column, so on this one-row table the derived
column `length_cummax_cummax` (holding the parsed value 1) differs from
the `length_cummax` metric column (overwritten to 2) — for a single row
the claim would force them to be equal. -/
theorem c1_counterexample :
    GamaReport.init none (some collisionLog) none (fun _ => []) =
      Except.ok collisionReport ∧
    "length_cummax" ∈ collisionReport.metrics ∧
    collisionReport.evaluations.nrows = 1 ∧
    collisionReport.evaluations.col ("length_cummax" ++ "_cummax") ≠
      collisionReport.evaluations.col "length_cummax" :=
  ⟨by decide, by decide, by decide, by decide⟩

/-- C1 witness: the amended claim at the sample log, metric `accuracy`. -/
theorem c1_witness :
    ("accuracy" ++ "_cummax") ∈ sampleReport.evaluations.colNames ∧
    ∃ qs : List Dec, qs.length = sampleReport.evaluations.nrows ∧
      sampleReport.evaluations.col "accuracy" = qs.map Cell.num ∧
      sampleReport.evaluations.col ("accuracy" ++ "_cummax") = (runMax qs).map Cell.num ∧
      (∀ i < qs.length,
        (∀ jj ≤ i, Dec.le (qs.getD jj ⟨0, 0⟩) ((runMax qs).getD i ⟨0, 0⟩)) ∧
        ∃ jj ≤ i, (runMax qs).getD i ⟨0, 0⟩ = qs.getD jj ⟨0, 0⟩) ∧
      (∀ i i', i ≤ i' → i' < qs.length →
        Dec.le ((runMax qs).getD i ⟨0, 0⟩) ((runMax qs).getD i' ⟨0, 0⟩)) :=
  c1_cummax_correct_amended none (some sampleLog) none (fun _ => []) sampleReport
    (by decide) (by decide) "accuracy" (by decide)

/-- C2 witness: the row-shape claim at the sample log. -/
theorem c2_witness :
    ∃ evs evalLines rows,
      events_by_type (initLines none (some sampleLog) (fun _ => [])) = Except.ok evs ∧
      dictGet evs EVALUATION_RESULT = Except.ok evalLines ∧
      sampleReport.evaluations.nrows = evalLines.length ∧
      buildRows 0 evalLines = Except.ok rows ∧
      rows.length = evalLines.length ∧
      ∀ i < evalLines.length, ∃ t d pd f id_ p lt vs,
        evalLines.getD i [] = [t, d, pd, f, id_, p, lt] ∧
        pyFloats f = Except.ok vs ∧
        rows.getD i [] = [Cell.int i, Cell.str t, Cell.str d] ++ vs.map Cell.num ++
          [Cell.str p, Cell.str id_] :=
  c2_evaluation_rows none (some sampleLog) none (fun _ => []) sampleReport (by decide)

/-- C3 witness: name inference at a one-row arity-1 input, and failure
at a two-row input of arities 1 and 2. -/
theorem c3_witness :
    (∃ k, (∃ t d pd f id_ p lt vs, arityOneLines.getD 0 [] = [t, d, pd, f, id_, p, lt] ∧
        pyFloats f = Except.ok vs ∧ vs.length = k) ∧
      arityOneFrame.colNames = ["n", "start", "duration"] ++ syntheticNames k ++
        ["pipeline", "id"] ++ (syntheticNames k).map (fun m => m ++ "_cummax")) ∧
    (∃ e, _evaluations_to_dataframe arityMixLines none = Except.error e) :=
  ⟨(c3_inferred_metric_names arityOneLines).1 arityOneFrame (by decide),
   (c3_inferred_metric_names arityMixLines).2 ⟨0, by decide, 1, by decide, by decide⟩⟩

/-- C4 witness: the regularize value `"False"` is a non-empty string, so
the resolver still appends the `length` objective. -/
theorem c4_witness :
    _find_metric_configuration
      ("x" :: ("GamaClassifier(scoring=" ++ "accuracy" ++ ",regularize_length=" ++
        "False" ++ ",n_jobs=1)") :: []) =
      Except.ok (if ("False" : String) = "" then ["accuracy"] else ["accuracy", "length"]) :=
  c4_metric_configuration "x" [] "accuracy" "False" (by decide) (by decide)

/-- C5 counterexample: a framed event with the unexpected token `WEIRD`
is not kept under its own key — the event group has no `WEIRD` key at
all. -/
theorem c5_counterexample :
    events_by_type unknownTokenLog = Except.ok unknownTokenGroup ∧
    (∃ pl ∈ ple_lines unknownTokenLog, pl.head? = some "WEIRD") ∧
    unknownTokenGroup.lookup "WEIRD" = none :=
  ⟨by decide, ⟨["WEIRD", "a"], by decide, by decide⟩, by decide⟩

/-- C5 witness: the amended claim at the unknown-token log. -/
theorem c5_witness :
    unknownTokenGroup.map Prod.fst = TOKENS_values ∧
    (∀ t, t ∉ TOKENS_values → unknownTokenGroup.lookup t = none) ∧
    (∀ t ∈ TOKENS_values, (∀ pl ∈ ple_lines unknownTokenLog, pl.head? ≠ some t) →
      unknownTokenGroup.lookup t = some []) :=
  c5_grouping_amended unknownTokenLog unknownTokenGroup (by decide)

/-- C6 counterexample: phase events of the two-field shape the claim
describes make the extractor fail on unpacking, while three-field events
are accepted — with the algorithm read from the second field (`algB`),
not the first (`preprocessing`), and the timestamps from the third
fields (13 − 10 = 3). -/
theorem c6_counterexample :
    findPhaseEntry twoFieldEvents "preprocessing" =
      Except.error (PyErr.valueError "unpack") ∧
    findPhaseEntry threeFieldEvents "preprocessing" =
      Except.ok ("preprocessing", "algB", 3) ∧
    (["preprocessing", "algB", "13"] : List String).getD 0 "" ≠ "algB" :=
  ⟨by decide, by decide, by decide⟩

/-- C6 witness: the amended claim at the three-field events. -/
theorem c6_witness :
    findPhaseEntry threeFieldEvents "preprocessing" =
      Except.ok ("preprocessing", "algB", (13 : ℤ) - 10) :=
  c6_phase_event_shape_amended threeFieldEvents "preprocessing"
    [["preprocessing", "algA", "10"]] [["preprocessing", "algB", "13"]]
    "preprocessing" "algA" "10" "preprocessing" "algB" "13" [] [] 10 13
    (by decide) (by decide) (by decide) (by decide) (by decide) (by decide)

/-- C7 counterexample: a log whose preprocessing end timestamp precedes
its start builds a report whose first phase has duration −2 < 0. -/
theorem c7_counterexample :
    GamaReport.init none (some negDurationLog) none (fun _ => []) =
      Except.ok negDurationReport ∧
    ¬ (∀ ph ∈ negDurationReport.phases, 0 ≤ ph.2.2) :=
  ⟨by decide, by decide⟩

/-- C7 witness: the amended claim at the sample log. -/
theorem c7_witness :
    sampleReport.phases.length = 3 ∧
      sampleReport.phases.map (fun ph => ph.1) =
        ["preprocessing", "search", "postprocess"] :=
  c7_phases_amended none (some sampleLog) none (fun _ => []) sampleReport (by decide)

/-- C8 witness: a log missing the `search` end-phase event makes
construction fail with the phase-lookup `IndexError`. -/
theorem c8_witness :
    ([["preprocessing", "default", "2"], ["postprocess", "best", "9"]] :
        List (List String)).filter (fun e => e.contains "search") = [] ∧
    GamaReport.init none (some missingEndLog) none (fun _ => []) =
      Except.error (PyErr.indexError "list index out of range") :=
  ⟨by decide,
   c8_phase_not_found missingEndLog none (fun _ => []) ["accuracy", "length"]
     [("EVAL", [["10", "1", "1", "(0.5,3.0)", "id1", "Pipe1", "11"],
                ["12", "2", "2", "(0.25,4.0)", "id2", "Pipe2", "13"]]),
      ("PS", [["preprocessing", "default", "1"], ["search", "evo", "3"],
              ["postprocess", "best", "8"]]),
      ("PE", [["preprocessing", "default", "2"], ["postprocess", "best", "9"]])]
     [["10", "1", "1", "(0.5,3.0)", "id1", "Pipe1", "11"],
      ["12", "2", "2", "(0.25,4.0)", "id2", "Pipe2", "13"]]
     sampleReport.evaluations
     [["preprocessing", "default", "1"], ["search", "evo", "3"],
      ["postprocess", "best", "8"]]
     [["preprocessing", "default", "2"], ["postprocess", "best", "9"]]
     "search" (by decide) (by decide) (by decide) (by decide) (by decide) (by decide)
     (by decide) (Or.inr (by decide))
     (by
       intro q hq
       simp only [List.mem_cons, List.not_mem_nil, or_false] at hq
       rcases hq with rfl | rfl | rfl
       · exact Or.inl ⟨("preprocessing", "default", 1), by decide⟩
       · exact Or.inr (by decide)
       · exact Or.inl ⟨("postprocess", "best", 1), by decide⟩)⟩

/-- C9 witness: both-given and neither-given inputs fail with the
argument `ValueError`s; an in-memory-only input yields a report. -/
theorem c9_witness :
    GamaReport.init none none none (fun _ => []) = Except.error (PyErr.valueError
      "Either 'logfile' or 'loglines' must be provided. Both are None.") ∧
    GamaReport.init (some "gama.log") (some sampleLog) none (fun _ => []) =
      Except.error (PyErr.valueError
      "Exactly one of 'logfile' and 'loglines' may be provided at once.") ∧
    ((none : Option String) = none ↔ (some sampleLog : Option (List String)) ≠ none) :=
  ⟨(c9_argument_check none none none (fun _ => [])).1 ⟨rfl, rfl⟩,
   (c9_argument_check (some "gama.log") (some sampleLog) none (fun _ => [])).2.1
     ⟨by simp, by simp⟩,
   (c9_argument_check none (some sampleLog) none (fun _ => [])).2.2 sampleReport
     (by decide)⟩

/-- C10 witness: a one-line in-memory input fails with the resolver's
`IndexError`. -/
theorem c10_witness :
    (["only line"] : List String).length < 2 ∧
    GamaReport.init none (some ["only line"]) none (fun _ => []) =
      Except.error (PyErr.indexError "list index out of range") :=
  ⟨by decide, c10_short_input ["only line"] none (fun _ => []) (by decide)⟩
